import Mathlib

/-!
Bacterial colony simulation: the generation-update engine and the loader.

A shallow embedding of `src/openglwin.cpp`:

* `count_neighbors`  (source lines 62-82)
* `swap_ptr`         (source lines 84-89)
* `updateGrid`       (source lines 91-126)
* `initializeGridFromFile` (source lines 145-182)

C `int` values are embedded as `Int`, which is exact as long as no operation
leaves the range of a 32-bit `int` (`fitsInt`).  `updateGrid` runs at the
program's compile-time sizes `GRID_HEIGHT` and `GRID_WIDTH`, whose product the
program itself computes as an `int` (`new int[GRID_WIDTH * GRID_HEIGHT]`).
`count_neighbors` and `initializeGridFromFile` take `rows` and `cols` at run
time: the theorems on them assume `rows * cols ≤ INT_MAX` and show that every
coordinate `x + dx`, every product `nx * cols` and every flat index
`nx * cols + ny` they form then fits an `int` (`flat_index_fits`, `coord_fits`).

The expression `line[j]` of the loader is read as C++11 defines it: the
character at `j` below `line.size()`, the null character at `line.size()`.

A buffer (`int *` pointing to `rows * cols` cells) is a `List Int`; reading or
writing outside the buffer is the failure value (`none`, or
`LoadError.outOfBounds` in the loader).
-/

namespace Colony

/-! ## Constants -/

/-- Number of columns, `const int GRID_WIDTH = 960`. -/
def GRID_WIDTH : Int := 960

/-- Number of rows, `const int GRID_HEIGHT = 540`. -/
def GRID_HEIGHT : Int := 540

/-- Size of the worker pool, `const int thread_count = 8`. -/
def thread_count : Int := 8

/-! ## Machine integers -/

/-- The largest value of a 32-bit `int`. -/
def INT_MAX : Int := 2147483647

/-- The smallest value of a 32-bit `int`. -/
def INT_MIN : Int := -2147483648

/-- The exact result `v` of an `int` operation is an `int`: the operation does not overflow. -/
def fitsInt (v : Int) : Prop := INT_MIN ≤ v ∧ v ≤ INT_MAX

instance (v : Int) : Decidable (fitsInt v) := by
  unfold fitsInt; infer_instance

/-! ## Buffers and array access -/

/-- A cell buffer: the cells an `int *` points to, in row-major order. -/
abbrev Buf := List Int

/-- The expression `buf[idx]` read as an rvalue; `none` outside the buffer. -/
def readCell (buf : Buf) (idx : Int) : Option Int :=
  if 0 ≤ idx ∧ idx < buf.length then buf[idx.toNat]? else none

/-- The assignment `buf[idx] = v`; `none` outside the buffer. -/
def writeCell (buf : Buf) (idx : Int) (v : Int) : Option Buf :=
  if 0 ≤ idx ∧ idx < buf.length then some (buf.set idx.toNat v) else none

/-! ## Counted loops -/

/-- Run `body i`, `body (i+1)`, ... for `n` consecutive values of the counter,
threading the state and stopping at the first failure. -/
def loopFrom {σ : Type} (body : Int → σ → Option σ) : Nat → Int → σ → Option σ
  | 0, _, s => some s
  | n + 1, i, s =>
    match body i s with
    | none => none
    | some s' => loopFrom body n (i + 1) s'

/-- The loop `for (int i = lo; i < hi; ++i) body`. -/
def forLoop {σ : Type} (lo hi : Int) (body : Int → σ → Option σ) (s : σ) : Option σ :=
  loopFrom body (hi - lo).toNat lo s

/-- The loop `for (int i = lo; i <= hi; ++i) body`. -/
def forLoopLe {σ : Type} (lo hi : Int) (body : Int → σ → Option σ) (s : σ) : Option σ :=
  loopFrom body (hi + 1 - lo).toNat lo s

/-! ## `count_neighbors` -/

/-- The body of the inner `dy` loop of `count_neighbors`, acting on `count`. -/
def neighborBody (x y : Int) (grid : Buf) (rows cols : Int) (dx dy : Int) (count : Int) :
    Option Int :=
  if dx ≠ 0 ∨ dy ≠ 0 then
    let nx := x + dx
    let ny := y + dy
    if nx ≥ 0 ∧ nx < rows ∧ ny ≥ 0 ∧ ny < cols then
      match readCell grid (nx * cols + ny) with
      | none => none
      | some v => if v = 1 then some (count + 1) else some count
    else some count
  else some count

/-- The function `int count_neighbors(int x, int y, int *grid, int rows, int cols)`. -/
def count_neighbors (x y : Int) (grid : Buf) (rows cols : Int) : Option Int :=
  forLoopLe (-1) 1 (fun dx count =>
    forLoopLe (-1) 1 (fun dy count => neighborBody x y grid rows cols dx dy count) count) 0

/-! ## `swap_ptr` and `updateGrid` -/

/-- The two global buffers: what `grid` points to and what `new_grid` points to.
They are two separate allocations (`main` calls `new int[...]` twice). -/
structure Sim where
  grid : Buf
  new_grid : Buf
  deriving DecidableEq

/-- The call `swap_ptr(&grid, &new_grid)`: the two pointers exchange their targets. -/
def swap_ptr (st : Sim) : Sim :=
  let tmp := st.grid
  { grid := st.new_grid, new_grid := tmp }

/-- The body of the `j` loop of `updateGrid`: one cell of row `i`. -/
def cellBody (rows cols : Int) (i j : Int) (st : Sim) : Option Sim :=
  match writeCell st.new_grid (i * cols + j) 0 with
  | none => none
  | some ng0 =>
    match count_neighbors i j st.grid rows cols with
    | none => none
    | some neighbors =>
      match readCell st.grid (i * cols + j) with
      | none => none
      | some c =>
        if c = 1 then
          if neighbors = 2 ∨ neighbors = 3 then
            match writeCell ng0 (i * cols + j) 1 with
            | none => none
            | some ng1 => some { st with new_grid := ng1 }
          else some { st with new_grid := ng0 }
        else
          if neighbors = 3 then
            match writeCell ng0 (i * cols + j) 1 with
            | none => none
            | some ng1 => some { st with new_grid := ng1 }
          else some { st with new_grid := ng0 }

/-- The OpenMP task created for row `i`: the whole `j` loop. -/
def rowTask (rows cols : Int) (i : Int) (st : Sim) : Option Sim :=
  forLoop 0 cols (fun j st => cellBody rows cols i j st) st

/-- Run `body i` for the counter values `i` of a list, one after another in the
order of the list, threading the state and stopping at the first failure. -/
def runInOrder {σ : Type} (body : Int → σ → Option σ) : List Int → σ → Option σ
  | [], s => some s
  | i :: rest, s =>
    match body i s with
    | none => none
    | some s' => runInOrder body rest s'

/-- The counter values of a loop of `n` iterations that starts at `lo`, in order. -/
def loopIndices : Nat → Int → List Int
  | 0, _ => []
  | n + 1, lo => lo :: loopIndices n (lo + 1)

/-- The function `updateGrid` with the row tasks run in creation order
(`rows` is `GRID_HEIGHT`, `cols` is `GRID_WIDTH`), followed by the swap. -/
def updateGrid (rows cols : Int) (st : Sim) : Option Sim :=
  match forLoop 0 rows (fun i st => rowTask rows cols i st) st with
  | none => none
  | some st' => some (swap_ptr st')

/-- The row indices for which `updateGrid` creates a task, in creation order. -/
def taskRows (rows : Int) : List Int :=
  loopIndices (rows - 0).toNat 0

/-- The function `updateGrid` with the row tasks completed in the order `order`
(the barrier at the end of the parallel region waits for all of them), followed by the swap. -/
def updateGridOrder (rows cols : Int) (order : List Int) (st : Sim) : Option Sim :=
  match runInOrder (fun i st => rowTask rows cols i st) order st with
  | none => none
  | some st' => some (swap_ptr st')


/-! ## `initializeGridFromFile` -/

/-- How a load can end other than by returning. The first three are the calls of
`exit(EXIT_FAILURE)` in the source; `outOfBounds` is an access outside a buffer or
outside a string, which the source does not define. -/
inductive LoadError where
  | failedToOpen
  | missingData
  | invalidChar (c : Char)
  | outOfBounds
  deriving DecidableEq

instance : DecidableEq (Except LoadError Buf)
  | .ok a, .ok b => if h : a = b then isTrue (by rw [h]) else isFalse (by intro h2; cases h2; exact h rfl)
  | .error a, .error b => if h : a = b then isTrue (by rw [h]) else isFalse (by intro h2; cases h2; exact h rfl)
  | .ok _, .error _ => isFalse (by intro h; cases h)
  | .error _, .ok _ => isFalse (by intro h; cases h)

/-- The load ended in one of the calls of `exit(EXIT_FAILURE)`. -/
def LoadError.isExit : LoadError → Bool
  | .failedToOpen => true
  | .missingData => true
  | .invalidChar _ => true
  | .outOfBounds => false

/-- The call `std::getline(file, line)` on the unread rest of the stream: `none` when
nothing can be extracted (the stream is at its end), otherwise the characters up to
the next newline and the rest of the stream after that newline. -/
def getline : List Char → Option (List Char × List Char)
  | [] => none
  | c :: cs =>
    if c = '\n' then some ([], cs)
    else
      match getline cs with
      | none => some ([c], [])
      | some (l, rest) => some (c :: l, rest)

/-- The expression `line[j]` on a `std::string`: the character at `j` inside the
string, the terminating null character at `j = line.size()`, undefined beyond. -/
def strAt (line : List Char) (j : Int) : Option Char :=
  if 0 ≤ j ∧ j < line.length then (line)[j.toNat]?
  else if j = line.length then some (Char.ofNat 0)
  else none

/-- Counted loop over a state, stopping at the first error. -/
def loopFromE {σ ε : Type} (body : Int → σ → Except ε σ) : Nat → Int → σ → Except ε σ
  | 0, _, s => .ok s
  | n + 1, i, s =>
    match body i s with
    | .error e => .error e
    | .ok s' => loopFromE body n (i + 1) s'

/-- The loop `for (int i = lo; i < hi; ++i) body` over a state, stopping at the first error. -/
def forLoopE {σ ε : Type} (lo hi : Int) (body : Int → σ → Except ε σ) (s : σ) : Except ε σ :=
  loopFromE body (hi - lo).toNat lo s

/-- The body of the `j` loop of `initializeGridFromFile`: decode `line[j]` into cell `(i, j)`. -/
def loadCell (cols : Int) (line : List Char) (i j : Int) (grid : Buf) : Except LoadError Buf :=
  match strAt line j with
  | none => .error .outOfBounds
  | some ch =>
    if ch = '.' then
      match writeCell grid (i * cols + j) 0 with
      | none => .error .outOfBounds
      | some g => .ok g
    else if ch = 'X' then
      match writeCell grid (i * cols + j) 1 with
      | none => .error .outOfBounds
      | some g => .ok g
    else .error (.invalidChar ch)

/-- The body of the `i` loop of `initializeGridFromFile`, on the pair of the unread
rest of the stream and the buffer: read one line, decode its first `cols` characters. -/
def loadRow (cols : Int) (i : Int) (st : List Char × Buf) : Except LoadError (List Char × Buf) :=
  match getline st.1 with
  | none => .error .missingData
  | some (line, rest) =>
    match forLoopE 0 cols (fun j g => loadCell cols line i j g) st.2 with
    | .error e => .error e
    | .ok g => .ok (rest, g)

/-- The function `initializeGridFromFile(filename, grid, rows, cols)`; `file` is the
content of the file named `filename`, `none` when it cannot be opened. The result is
the buffer `grid` as the function leaves it when it returns. -/
def initializeGridFromFile (file : Option (List Char)) (grid : Buf) (rows cols : Int) :
    Except LoadError Buf :=
  match file with
  | none => .error .failedToOpen
  | some text =>
    match forLoopE 0 rows (fun i st => loadRow cols i st) (text, grid) with
    | .error e => .error e
    | .ok st => .ok st.2

/-! ## Specification vocabulary -/

/-- The lines of a text, as successive calls of `getline` deliver them. -/
def fileLines : List Char → List (List Char)
  | [] => []
  | c :: cs =>
    if c = '\n' then [] :: fileLines cs
    else
      match fileLines cs with
      | [] => [[c]]
      | l :: ls => (c :: l) :: ls

/-- Character `j` of line `i` of a text given by its lines, when there is one. -/
def charAt (ls : List (List Char)) (i j : Int) : Option Char :=
  if 0 ≤ i ∧ 0 ≤ j then
    match ls[i.toNat]? with
    | none => none
    | some l => l[j.toNat]?
  else none

/-- The pairs `(dx, dy)` of `{-1, 0, 1} x {-1, 0, 1}`. -/
def mooreOffsets : List (Int × Int) :=
  List.product [-1, 0, 1] [-1, 0, 1]

/-- Cell `(r, c)` lies inside `[0, rows) x [0, cols)` and is ALIVE in `grid`. -/
def aliveInside (grid : Buf) (rows cols : Int) (r c : Int) : Prop :=
  0 ≤ r ∧ r < rows ∧ 0 ≤ c ∧ c < cols ∧ grid[(r * cols + c).toNat]? = some 1

instance (grid : Buf) (rows cols r c : Int) : Decidable (aliveInside grid rows cols r c) := by
  unfold aliveInside; infer_instance

/-- The neighbour count in the spec's words: the number of pairs `(dx, dy)` of
`{-1, 0, 1}^2` other than `(0, 0)` for which `(x + dx, y + dy)` is inside the grid and ALIVE. -/
def specNeighborCount (grid : Buf) (rows cols : Int) (x y : Int) : Nat :=
  mooreOffsets.countP (fun d => decide (d ≠ (0, 0) ∧ aliveInside grid rows cols (x + d.1) (y + d.2)))

/-- The value the body of the `j` loop of `updateGrid` computes for cell `(i, j)`: the
right-hand side of its last assignment to `new_grid[i * cols + j]`. -/
def stepCell (grid : Buf) (rows cols : Int) (i j : Int) : Int :=
  match count_neighbors i j grid rows cols, readCell grid (i * cols + j) with
  | some neighbors, some c =>
    if c = 1 then (if neighbors = 2 ∨ neighbors = 3 then 1 else 0)
    else (if neighbors = 3 then 1 else 0)
  | _, _ => 0

/-- The buffer of `rows * cols` cells that holds `stepCell` in every cell. -/
def stepGrid (grid : Buf) (rows cols : Int) : Buf :=
  (List.range (rows * cols).toNat).map
    (fun (idx : Nat) => stepCell grid rows cols ((idx : Int) / cols) ((idx : Int) % cols))

/-- A grid of `rows x cols` cells, each DEAD (0) or ALIVE (1). -/
def IsGrid (rows cols : Int) (g : Buf) : Prop :=
  (g.length : Int) = rows * cols ∧ ∀ c ∈ g, c = 0 ∨ c = 1

instance (rows cols : Int) (g : Buf) : Decidable (IsGrid rows cols g) := by
  unfold IsGrid; infer_instance

/-! ## Theorems -/

/-! ### Array access and `count_neighbors` -/

theorem flat_index_bound {rows cols nx ny : Int} (h1 : 0 ≤ nx) (h2 : nx < rows) (h3 : 0 ≤ ny)
    (h4 : ny < cols) : 0 ≤ nx * cols + ny ∧ nx * cols + ny < rows * cols := by
  have hc : 0 ≤ cols := by omega
  constructor
  · have := mul_nonneg h1 hc
    omega
  · have h5 : (nx + 1) * cols ≤ rows * cols := mul_le_mul_of_nonneg_right (by omega) hc
    have h6 : (nx + 1) * cols = nx * cols + cols := by ring
    omega

/-- The sizes of a grid whose number of cells is an `int` are `int`s. -/
theorem dims_fit {rows cols : Int} (hr : 0 < rows) (hc : 0 < cols) (hfit : rows * cols ≤ INT_MAX) :
    rows ≤ INT_MAX ∧ cols ≤ INT_MAX := by
  have h1 : rows ≤ rows * cols := le_mul_of_one_le_right (le_of_lt hr) hc
  have h2 : cols ≤ rows * cols := le_mul_of_one_le_left (le_of_lt hc) hr
  exact ⟨le_trans h1 hfit, le_trans h2 hfit⟩

/-- The product and the flat index formed for a cell inside the grid are `int`s whenever the
number of cells of the grid is an `int`. -/
theorem flat_index_fits {rows cols nx ny : Int} (h1 : 0 ≤ nx) (h2 : nx < rows) (h3 : 0 ≤ ny)
    (h4 : ny < cols) (hfit : rows * cols ≤ INT_MAX) :
    fitsInt (nx * cols) ∧ fitsInt (nx * cols + ny) := by
  have hb := flat_index_bound h1 h2 h3 h4
  have hc : 0 ≤ cols := by omega
  have := mul_nonneg h1 hc
  unfold fitsInt INT_MIN
  unfold INT_MAX at hfit ⊢
  omega

/-- Why the theorems on runtime sizes carry `rows * cols ≤ INT_MAX`: on a grid of
46341 x 46341 cells the flat index of the cell `(46340, 46339)`, a neighbour of the last cell,
is not an `int`, while the sizes themselves are. -/
theorem flat_index_overflows_beyond_int :
    fitsInt 46341 ∧ ¬ (46341 * 46341 ≤ INT_MAX) ∧ ¬ fitsInt (46340 * 46341 + 46339) := by
  decide

/-- A coordinate or counter at most one step away from a cell of the grid is an `int`. -/
theorem coord_fits {n x d : Int} (hx0 : 0 ≤ x) (hx : x < n) (hn : n ≤ INT_MAX)
    (hd0 : -1 ≤ d) (hd1 : d ≤ 1) : fitsInt (x + d) := by
  unfold fitsInt INT_MIN
  unfold INT_MAX at hn ⊢
  omega

theorem readCell_eq_getElem? {buf : Buf} {idx : Int} (h0 : 0 ≤ idx) (h1 : idx < buf.length) :
    readCell buf idx = buf[idx.toNat]? := by
  simp [readCell, h0, h1]

theorem readCell_some (buf : Buf) {idx : Int} (h0 : 0 ≤ idx) (h1 : idx < buf.length) :
    ∃ v, readCell buf idx = some v ∧ buf[idx.toNat]? = some v := by
  have hlt : idx.toNat < buf.length := by omega
  refine ⟨buf[idx.toNat], ?_, ?_⟩
  · rw [readCell_eq_getElem? h0 h1]; exact List.getElem?_eq_getElem hlt
  · exact List.getElem?_eq_getElem hlt

theorem writeCell_eq_set {buf : Buf} {idx v : Int} (h0 : 0 ≤ idx) (h1 : idx < buf.length) :
    writeCell buf idx v = some (buf.set idx.toNat v) := by
  simp [writeCell, h0, h1]

/-- The contribution of one offset to the neighbour count. -/
theorem neighborBody_eq (x y : Int) (grid : Buf) (rows cols : Int)
    (hlen : (grid.length : Int) = rows * cols) (dx dy count : Int) :
    neighborBody x y grid rows cols dx dy count
      = some (count + if (dx, dy) ≠ (0, 0) ∧ aliveInside grid rows cols (x + dx) (y + dy)
          then 1 else 0) := by
  unfold neighborBody aliveInside
  by_cases hd : dx ≠ 0 ∨ dy ≠ 0
  · have hd' : (dx, dy) ≠ (0, 0) := by
      intro h; simp only [Prod.mk.injEq] at h; omega
    by_cases hin : x + dx ≥ 0 ∧ x + dx < rows ∧ y + dy ≥ 0 ∧ y + dy < cols
    · obtain ⟨h1, h2, h3, h4⟩ := hin
      have hb := flat_index_bound h1 h2 h3 h4
      obtain ⟨v, hv, hv'⟩ := readCell_some grid hb.1 (by omega)
      simp only [if_pos hd, if_pos (show x + dx ≥ 0 ∧ x + dx < rows ∧ y + dy ≥ 0 ∧ y + dy < cols from ⟨h1, h2, h3, h4⟩), hv, hv']
      by_cases hv1 : v = 1
      · subst hv1
        simp [hd', h1, h2, h3, h4]
        omega
      · have : ¬ (some v = some (1 : Int)) := by simpa using hv1
        simp [hd', hv1]
    · rw [if_pos hd, if_neg hin]
      have : ¬ ((dx, dy) ≠ (0, 0) ∧ 0 ≤ x + dx ∧ x + dx < rows ∧ 0 ≤ y + dy ∧ y + dy < cols ∧
          grid[((x + dx) * cols + (y + dy)).toNat]? = some 1) := by
        rintro ⟨_, a, b, c, d, _⟩; exact hin ⟨a, b, c, d⟩
      rw [if_neg this]; simp
  · rw [if_neg hd]
    have : ¬ ((dx, dy) ≠ (0, 0) ∧ 0 ≤ x + dx ∧ x + dx < rows ∧ 0 ≤ y + dy ∧ y + dy < cols ∧
          grid[((x + dx) * cols + (y + dy)).toNat]? = some 1) := by
      rintro ⟨h, _⟩; apply h; simp only [Prod.mk.injEq]; omega
    rw [if_neg this]; simp

theorem mooreOffsets_eq : mooreOffsets =
    [(-1, -1), (-1, 0), (-1, 1), (0, -1), (0, 0), (0, 1), (1, -1), (1, 0), (1, 1)] := by
  decide

theorem count_neighbors_eq_spec (x y : Int) (grid : Buf) (rows cols : Int)
    (hlen : (grid.length : Int) = rows * cols) :
    count_neighbors x y grid rows cols = some (specNeighborCount grid rows cols x y : Int) := by
  have h3 : ((1 : Int) + 1 - (-1)).toNat = 3 := by decide
  simp only [count_neighbors, forLoopLe, h3, loopFrom, neighborBody_eq x y grid rows cols hlen]
  simp only [specNeighborCount, mooreOffsets_eq, List.countP_cons, List.countP_nil]
  congr 1
  norm_num
  ring


/-- Indicator of an ALIVE cell inside the grid. -/
theorem count_neighbors_eq_sum (x y : Int) (grid : Buf) (rows cols : Int)
    (hlen : (grid.length : Int) = rows * cols) :
    count_neighbors x y grid rows cols = some
      ((if aliveInside grid rows cols (x - 1) (y - 1) then 1 else 0)
      + (if aliveInside grid rows cols (x - 1) y then 1 else 0)
      + (if aliveInside grid rows cols (x - 1) (y + 1) then 1 else 0)
      + (if aliveInside grid rows cols x (y - 1) then 1 else 0)
      + (if aliveInside grid rows cols x (y + 1) then 1 else 0)
      + (if aliveInside grid rows cols (x + 1) (y - 1) then 1 else 0)
      + (if aliveInside grid rows cols (x + 1) y then 1 else 0)
      + (if aliveInside grid rows cols (x + 1) (y + 1) then 1 else 0)) := by
  have h3 : ((1 : Int) + 1 - (-1)).toNat = 3 := by decide
  simp only [count_neighbors, forLoopLe, h3, loopFrom, neighborBody_eq x y grid rows cols hlen]
  congr 1
  norm_num
  simp only [Int.sub_eq_add_neg]

theorem specNeighborCount_le (grid : Buf) (rows cols x y : Int) :
    specNeighborCount grid rows cols x y ≤ 8 := by
  simp only [specNeighborCount, mooreOffsets_eq, List.countP_cons, List.countP_nil]
  norm_num
  repeat' split
  all_goals omega

/-! ### Loops and the frame rule -/

theorem loopFrom_eq_runInOrder {σ : Type} (body : Int → σ → Option σ) (n : Nat) (lo : Int) (s : σ) :
    loopFrom body n lo s = runInOrder body (loopIndices n lo) s := by
  induction n generalizing lo s with
  | zero => rfl
  | succ n ih =>
    simp only [loopFrom, loopIndices, runInOrder]
    cases body lo s with
    | none => rfl
    | some s' => exact ih (lo + 1) s'

theorem mem_loopIndices (n : Nat) (lo k : Int) : k ∈ loopIndices n lo ↔ lo ≤ k ∧ k < lo + n := by
  induction n generalizing lo with
  | zero => simp [loopIndices]
  | succ n ih =>
    simp only [loopIndices, List.mem_cons, ih]
    push_cast
    omega

theorem mem_taskRows (rows k : Int) : k ∈ taskRows rows ↔ 0 ≤ k ∧ k < rows := by
  unfold taskRows
  rw [mem_loopIndices]
  omega

/-- Frame rule for a sequence of steps on the scratch buffer: a step `k` that leaves
`grid` alone, sets the cells of its footprint `F k` to `val` and leaves the other
cells of `new_grid` alone. -/
theorem runInOrder_footprint (G : Buf) (L : Nat) (val : Nat → Int) (F : Int → Nat → Prop)
    (body : Int → Sim → Option Sim) (ks : List Int)
    (hbody : ∀ k ∈ ks, ∀ st : Sim, st.grid = G → st.new_grid.length = L →
      ∃ st', body k st = some st' ∧ st'.grid = G ∧ st'.new_grid.length = L ∧
        (∀ idx, F k idx → st'.new_grid[idx]? = some (val idx)) ∧
        (∀ idx, ¬ F k idx → st'.new_grid[idx]? = st.new_grid[idx]?))
    (st : Sim) (hG : st.grid = G) (hL : st.new_grid.length = L) :
    ∃ st', runInOrder body ks st = some st' ∧ st'.grid = G ∧ st'.new_grid.length = L ∧
      (∀ idx, (∃ k ∈ ks, F k idx) → st'.new_grid[idx]? = some (val idx)) ∧
      (∀ idx, (¬ ∃ k ∈ ks, F k idx) → st'.new_grid[idx]? = st.new_grid[idx]?) := by
  induction ks generalizing st with
  | nil => exact ⟨st, rfl, hG, hL, by simp, by simp⟩
  | cons k rest ih =>
    obtain ⟨st1, h1, hG1, hL1, hset1, hframe1⟩ := hbody k (List.mem_cons_self _ _) st hG hL
    obtain ⟨st2, h2, hG2, hL2, hset2, hframe2⟩ :=
      ih (fun k' hk' => hbody k' (List.mem_cons_of_mem _ hk')) st1 hG1 hL1
    refine ⟨st2, ?_, hG2, hL2, ?_, ?_⟩
    · simp only [runInOrder, h1, h2]
    · intro idx hidx
      by_cases hr : ∃ k' ∈ rest, F k' idx
      · exact hset2 idx hr
      · rw [hframe2 idx hr]
        obtain ⟨k', hk', hF⟩ := hidx
        rcases List.mem_cons.mp hk' with rfl | hk''
        · exact hset1 idx hF
        · exact absurd ⟨k', hk'', hF⟩ hr
    · intro idx hidx
      have hr : ¬ ∃ k' ∈ rest, F k' idx := by
        rintro ⟨k', hk', hF⟩; exact hidx ⟨k', List.mem_cons_of_mem _ hk', hF⟩
      have hk : ¬ F k idx := fun hF => hidx ⟨k, List.mem_cons_self _ _, hF⟩
      rw [hframe2 idx hr, hframe1 idx hk]

theorem flat_index_div {cols i j : Int} (hj0 : 0 ≤ j) (hj : j < cols) :
    (i * cols + j) / cols = i ∧ (i * cols + j) % cols = j := by
  have hc : cols ≠ 0 := by omega
  constructor
  · rw [add_comm, Int.add_mul_ediv_right _ _ hc, Int.ediv_eq_zero_of_lt hj0 hj]; simp
  · rw [add_comm, Int.add_mul_emod_self, Int.emod_eq_of_lt hj0 hj]

/-- One cell of the update: the scratch cell `(i, j)` receives `stepCell`. -/
theorem cellBody_eq (rows cols i j : Int) (st : Sim)
    (hi0 : 0 ≤ i) (hi : i < rows) (hj0 : 0 ≤ j) (hj : j < cols)
    (hlen : (st.grid.length : Int) = rows * cols)
    (hlen' : (st.new_grid.length : Int) = rows * cols) :
    cellBody rows cols i j st
      = some { st with new_grid := st.new_grid.set (i * cols + j).toNat (stepCell st.grid rows cols i j) } := by
  have hb := flat_index_bound hi0 hi hj0 hj
  obtain ⟨c, hc, _⟩ := readCell_some st.grid hb.1 (by omega)
  have hn := count_neighbors_eq_spec i j st.grid rows cols hlen
  have hw : ∀ v, writeCell (st.new_grid.set (i * cols + j).toNat 0) (i * cols + j) v
      = some (st.new_grid.set (i * cols + j).toNat v) := by
    intro v
    rw [writeCell_eq_set hb.1 (by rw [List.length_set]; omega), List.set_set]
  simp only [cellBody, stepCell, writeCell_eq_set hb.1 (show i * cols + j < st.new_grid.length by omega),
    hn, hc, hw]
  split_ifs <;> rfl

/-! ### One step of the grid -/

/-- One row task: the cells of row `i` of the scratch buffer receive `stepCell`,
every other cell of the scratch buffer and the whole of `grid` stay as they are. -/
theorem rowTask_footprint (rows cols : Int) (G : Buf) (L : Nat)
    (hG : (G.length : Int) = rows * cols) (hL : (L : Int) = rows * cols)
    (i : Int) (hi0 : 0 ≤ i) (hi : i < rows) (st : Sim)
    (hg : st.grid = G) (hl : st.new_grid.length = L) :
    ∃ st', rowTask rows cols i st = some st' ∧ st'.grid = G ∧ st'.new_grid.length = L ∧
      (∀ idx : Nat, (∃ j, 0 ≤ j ∧ j < cols ∧ idx = (i * cols + j).toNat) →
        st'.new_grid[idx]? = some (stepCell G rows cols ((idx : Int) / cols) ((idx : Int) % cols))) ∧
      (∀ idx : Nat, (¬ ∃ j, 0 ≤ j ∧ j < cols ∧ idx = (i * cols + j).toNat) →
        st'.new_grid[idx]? = st.new_grid[idx]?) := by
  unfold rowTask forLoop
  rw [loopFrom_eq_runInOrder]
  have key := runInOrder_footprint G L
    (fun idx => stepCell G rows cols ((idx : Int) / cols) ((idx : Int) % cols))
    (fun j idx => idx = (i * cols + j).toNat)
    (fun j st => cellBody rows cols i j st) (loopIndices (cols - 0).toNat 0) ?_ st hg hl
  · obtain ⟨st', h1, h2, h3, h4, h5⟩ := key
    refine ⟨st', h1, h2, h3, ?_, ?_⟩
    · rintro idx ⟨j, hj0, hj, rfl⟩
      exact h4 _ ⟨j, (mem_loopIndices _ _ _).mpr ⟨hj0, by omega⟩, rfl⟩
    · intro idx hidx
      apply h5
      rintro ⟨j, hj, rfl⟩
      rw [mem_loopIndices] at hj
      exact hidx ⟨j, hj.1, by omega, rfl⟩
  · intro j hj s hs hsl
    rw [mem_loopIndices] at hj
    have hj0 : 0 ≤ j := hj.1
    have hj1 : j < cols := by omega
    have hb := flat_index_bound hi0 hi hj0 hj1
    have hlt : (i * cols + j).toNat < s.new_grid.length := by omega
    refine ⟨_, cellBody_eq rows cols i j s hi0 hi hj0 hj1 (by rw [hs]; exact hG) (by omega),
      hs, by simp [hsl], ?_, ?_⟩
    · rintro idx rfl
      have hcast : (((i * cols + j).toNat : Nat) : Int) = i * cols + j := Int.toNat_of_nonneg hb.1
      simp only [hcast, (flat_index_div hj0 hj1).1, (flat_index_div hj0 hj1).2, hs]
      exact List.getElem?_set_self hlt
    · intro idx hidx
      exact List.getElem?_set_ne (Ne.symm hidx)

/-- Every flat index below `rows * cols` is the index of one cell `(i, j)`. -/
theorem flat_index_decompose (rows : Int) {cols : Int} (hc : 0 < cols) (idx : Nat)
    (h : (idx : Int) < rows * cols) :
    0 ≤ (idx : Int) / cols ∧ (idx : Int) / cols < rows ∧ 0 ≤ (idx : Int) % cols ∧
      (idx : Int) % cols < cols ∧ idx = (((idx : Int) / cols) * cols + (idx : Int) % cols).toNat := by
  have h0 : (0 : Int) ≤ idx := Int.ofNat_nonneg idx
  have hd : (idx : Int) / cols * cols + (idx : Int) % cols = idx := Int.ediv_add_emod' _ _
  refine ⟨Int.ediv_nonneg h0 (le_of_lt hc), ?_, Int.emod_nonneg _ (by omega),
    Int.emod_lt_of_pos _ hc, ?_⟩
  · rw [mul_comm] at h
    exact Int.ediv_lt_of_lt_mul hc (by rw [mul_comm]; exact h)
  · rw [hd]; simp

/-- All row tasks, in any order that runs every row: the scratch buffer becomes
`stepGrid` and `grid` stays as it is. -/
theorem runRows_eq (rows cols : Int) (hc : 0 < cols) (G S : Buf)
    (hG : (G.length : Int) = rows * cols) (hS : (S.length : Int) = rows * cols)
    (order : List Int) (hin : ∀ i ∈ order, 0 ≤ i ∧ i < rows)
    (hall : ∀ i, 0 ≤ i → i < rows → i ∈ order) :
    runInOrder (fun i st => rowTask rows cols i st) order { grid := G, new_grid := S }
      = some { grid := G, new_grid := stepGrid G rows cols } := by
  have key := runInOrder_footprint G S.length
    (fun idx => stepCell G rows cols ((idx : Int) / cols) ((idx : Int) % cols))
    (fun i idx => ∃ j, 0 ≤ j ∧ j < cols ∧ idx = (i * cols + j).toNat)
    (fun i st => rowTask rows cols i st) order
    (fun i hi st hg hl => rowTask_footprint rows cols G S.length hG hS i (hin i hi).1 (hin i hi).2 st hg hl)
    { grid := G, new_grid := S } rfl rfl
  obtain ⟨st', h1, h2, h3, h4, _⟩ := key
  rw [h1]
  obtain ⟨g, ng⟩ := st'
  simp only at h2 h3 h4
  subst h2
  congr 2
  apply List.ext_getElem?
  intro idx
  by_cases hidx : idx < S.length
  · have hlt : (idx : Int) < rows * cols := by omega
    obtain ⟨a, b, c, d, e⟩ := flat_index_decompose rows hc idx hlt
    rw [h4 idx ⟨(idx : Int) / cols, hall _ a b, (idx : Int) % cols, c, d, e⟩]
    have hr : idx < (rows * cols).toNat := by omega
    simp [stepGrid, List.getElem?_range hr]
  · have h5 : ng.length ≤ idx := by omega
    have h6 : (stepGrid g rows cols).length ≤ idx := by
      simp only [stepGrid, List.length_map, List.length_range]; omega
    rw [List.getElem?_eq_none h5, List.getElem?_eq_none h6]

theorem updateGridOrder_eq (rows cols : Int) (hc : 0 < cols) (G S : Buf)
    (hG : (G.length : Int) = rows * cols) (hS : (S.length : Int) = rows * cols)
    (order : List Int) (hin : ∀ i ∈ order, 0 ≤ i ∧ i < rows)
    (hall : ∀ i, 0 ≤ i → i < rows → i ∈ order) :
    updateGridOrder rows cols order { grid := G, new_grid := S }
      = some { grid := stepGrid G rows cols, new_grid := G } := by
  simp only [updateGridOrder, runRows_eq rows cols hc G S hG hS order hin hall, swap_ptr]

theorem updateGrid_eq_order (rows cols : Int) (st : Sim) :
    updateGrid rows cols st = updateGridOrder rows cols (taskRows rows) st := by
  simp only [updateGrid, updateGridOrder, forLoop, loopFrom_eq_runInOrder, taskRows]

theorem updateGrid_eq (rows cols : Int) (hc : 0 < cols) (G S : Buf)
    (hG : (G.length : Int) = rows * cols) (hS : (S.length : Int) = rows * cols) :
    updateGrid rows cols { grid := G, new_grid := S }
      = some { grid := stepGrid G rows cols, new_grid := G } := by
  rw [updateGrid_eq_order]
  exact updateGridOrder_eq rows cols hc G S hG hS _
    (fun i hi => (mem_taskRows rows i).mp hi) (fun i h0 h1 => (mem_taskRows rows i).mpr ⟨h0, h1⟩)

/-- The step of the program itself, at `GRID_HEIGHT` rows and `GRID_WIDTH` columns. -/
theorem updateGrid_program (G S : Buf) (hG : G.length = 518400) (hS : S.length = 518400) :
    updateGrid GRID_HEIGHT GRID_WIDTH { grid := G, new_grid := S }
      = some { grid := stepGrid G GRID_HEIGHT GRID_WIDTH, new_grid := G } :=
  updateGrid_eq GRID_HEIGHT GRID_WIDTH (by decide) G S
    (by rw [hG]; decide) (by rw [hS]; decide)

theorem stepGrid_length (rows cols : Int) (G : Buf) :
    ((stepGrid G rows cols).length : Int) = (rows * cols).toNat := by
  simp [stepGrid]

theorem stepGrid_getElem? (rows cols : Int) (G : Buf) (i j : Int)
    (hi0 : 0 ≤ i) (hi : i < rows) (hj0 : 0 ≤ j) (hj : j < cols) :
    (stepGrid G rows cols)[(i * cols + j).toNat]? = some (stepCell G rows cols i j) := by
  have hb := flat_index_bound hi0 hi hj0 hj
  have hr : (i * cols + j).toNat < (rows * cols).toNat := by omega
  have hcast : (((i * cols + j).toNat : Nat) : Int) = i * cols + j := Int.toNat_of_nonneg hb.1
  simp [stepGrid, List.getElem?_range hr, hcast, (flat_index_div hj0 hj).1, (flat_index_div hj0 hj).2]

/-! ### The row tasks leave `grid` alone -/

theorem isGrid_cell {rows cols : Int} {G : Buf} (hG : IsGrid rows cols G) {idx : Nat} {c : Int}
    (h : G[idx]? = some c) : c = 0 ∨ c = 1 :=
  hG.2 c (List.getElem?_mem h)

/-- The row tasks never write to `grid`, whatever the state they start from. -/
theorem cellBody_grid (rows cols i j : Int) (st st' : Sim)
    (h : cellBody rows cols i j st = some st') : st'.grid = st.grid := by
  unfold cellBody at h
  repeat' split at h
  all_goals first
    | contradiction
    | (simp only [Option.some.injEq] at h; subst h; rfl)

theorem runInOrder_preserves {σ : Type} (body : Int → σ → Option σ) (P : σ → Prop)
    (hbody : ∀ k s s', P s → body k s = some s' → P s')
    (ks : List Int) (s s' : σ) (hs : P s) (h : runInOrder body ks s = some s') : P s' := by
  induction ks generalizing s with
  | nil => simp only [runInOrder, Option.some.injEq] at h; subst h; exact hs
  | cons k rest ih =>
    simp only [runInOrder] at h
    cases hb : body k s with
    | none => rw [hb] at h; contradiction
    | some s1 => rw [hb] at h; exact ih s1 (hbody k s s1 hs hb) h

theorem rowTask_grid (rows cols i : Int) (st st' : Sim)
    (h : rowTask rows cols i st = some st') : st'.grid = st.grid := by
  unfold rowTask forLoop at h
  rw [loopFrom_eq_runInOrder] at h
  exact runInOrder_preserves _ (fun s => s.grid = st.grid)
    (fun k s s' hs hb => (cellBody_grid rows cols i k s s' hb).trans hs) _ st st' rfl h

theorem runRows_grid (rows cols : Int) (order : List Int) (st st' : Sim)
    (h : runInOrder (fun i st => rowTask rows cols i st) order st = some st') :
    st'.grid = st.grid :=
  runInOrder_preserves _ (fun s => s.grid = st.grid)
    (fun k s s' hs hb => (rowTask_grid rows cols k s s' hb).trans hs) _ st st' rfl h

/-! ### The rule, the neighbour count, the scratch buffer -/

theorem stepCell_eq (rows cols : Int) (G : Buf) (hG : (G.length : Int) = rows * cols)
    (i j : Int) (hi0 : 0 ≤ i) (hi : i < rows) (hj0 : 0 ≤ j) (hj : j < cols) :
    ∃ c, G[(i * cols + j).toNat]? = some c ∧
      stepCell G rows cols i j =
        if c = 1 then
          (if (specNeighborCount G rows cols i j : Int) = 2 ∨ (specNeighborCount G rows cols i j : Int) = 3
            then 1 else 0)
        else (if (specNeighborCount G rows cols i j : Int) = 3 then 1 else 0) := by
  have hb := flat_index_bound hi0 hi hj0 hj
  obtain ⟨c, hc, hc'⟩ := readCell_some G hb.1 (by omega)
  refine ⟨c, hc', ?_⟩
  simp only [stepCell, count_neighbors_eq_spec i j G rows cols hG, hc]

/-- C1: after one `updateGrid`, cell `(i, j)` of the new generation is ALIVE exactly when the
old cell is ALIVE with 2 or 3 ALIVE neighbours or DEAD with exactly 3, and DEAD otherwise
(so a DEAD cell with 2 or 4 ALIVE neighbours stays DEAD); the neighbour count is
`count_neighbors i j` on the old generation. -/
theorem updateGrid_rule (rows cols : Int) (G S : Buf) (hG : IsGrid rows cols G)
    (hS : (S.length : Int) = rows * cols)
    (i j : Int) (hi0 : 0 ≤ i) (hi : i < rows) (hj0 : 0 ≤ j) (hj : j < cols) :
    ∃ st' n c, updateGrid rows cols { grid := G, new_grid := S } = some st' ∧
      count_neighbors i j G rows cols = some n ∧
      G[(i * cols + j).toNat]? = some c ∧
      (st'.grid[(i * cols + j).toNat]? = some 1 ↔ (c = 1 ∧ (n = 2 ∨ n = 3)) ∨ (c = 0 ∧ n = 3)) ∧
      (¬ ((c = 1 ∧ (n = 2 ∨ n = 3)) ∨ (c = 0 ∧ n = 3)) →
        st'.grid[(i * cols + j).toNat]? = some 0) ∧
      (c = 0 → n = 2 ∨ n = 4 → st'.grid[(i * cols + j).toNat]? = some 0) := by
  have hc : 0 < cols := by omega
  obtain ⟨c, hc1, hc2⟩ := stepCell_eq rows cols G hG.1 i j hi0 hi hj0 hj
  have hbin := isGrid_cell hG hc1
  refine ⟨_, _, c, updateGrid_eq rows cols hc G S hG.1 hS,
    count_neighbors_eq_spec i j G rows cols hG.1, hc1, ?_⟩
  simp only [stepGrid_getElem? rows cols G i j hi0 hi hj0 hj, hc2]
  generalize (specNeighborCount G rows cols i j : Int) = n
  rcases hbin with rfl | rfl
  · refine ⟨?_, ?_, ?_⟩
    · by_cases h3 : n = 3 <;> simp [h3]
    · intro h; by_cases h3 : n = 3 <;> simp [h3] at h ⊢
    · intro _ h; have h3 : n ≠ 3 := by omega
      simp [h3]
  · refine ⟨?_, ?_, ?_⟩
    · by_cases h3 : n = 2 ∨ n = 3 <;> simp [h3]
    · intro h; by_cases h3 : n = 2 ∨ n = 3 <;> simp [h3] at h ⊢
    · intro h; exact absurd h (by decide)

/-- The rule at cell `(1, 0)` of a 3 x 3 grid holding a vertical blinker. -/
theorem updateGrid_rule_witness :
    ∃ st' n c, updateGrid 3 3 { grid := [0, 1, 0, 0, 1, 0, 0, 1, 0], new_grid := [9, 9, 9, 9, 9, 9, 9, 9, 9] }
        = some st' ∧
      count_neighbors 1 0 [0, 1, 0, 0, 1, 0, 0, 1, 0] 3 3 = some n ∧
      ([0, 1, 0, 0, 1, 0, 0, 1, 0] : Buf)[((1 : Int) * 3 + 0).toNat]? = some c ∧
      (st'.grid[((1 : Int) * 3 + 0).toNat]? = some 1 ↔ (c = 1 ∧ (n = 2 ∨ n = 3)) ∨ (c = 0 ∧ n = 3)) ∧
      (¬ ((c = 1 ∧ (n = 2 ∨ n = 3)) ∨ (c = 0 ∧ n = 3)) →
        st'.grid[((1 : Int) * 3 + 0).toNat]? = some 0) ∧
      (c = 0 → n = 2 ∨ n = 4 → st'.grid[((1 : Int) * 3 + 0).toNat]? = some 0) :=
  updateGrid_rule 3 3 [0, 1, 0, 0, 1, 0, 0, 1, 0] [9, 9, 9, 9, 9, 9, 9, 9, 9]
    ⟨by decide, by decide⟩ (by decide) 1 0 (by decide) (by decide) (by decide) (by decide)

/-- C2: for a cell `(x, y)` of a grid of `rows * cols` cells, a number that is an `int`,
`count_neighbors x y` returns, and its result is the number of pairs `(dx, dy)` of
`{-1, 0, 1}^2` other than `(0, 0)` whose cell `(x + dx, y + dy)` lies inside the grid and is
ALIVE, a number between 0 and 8; cells outside the grid count for nothing and nothing wraps
around. Every coordinate `x + dx`, `y + dy` and, for a neighbour inside the grid, the product
`nx * cols` and the flat index `nx * cols + ny` are `int`s, and the index lies in the buffer.
On the 3 x 3 all-ALIVE grid the centre has 8 and a corner 3, and a cell of column 0 does not
count the last cell of the row above. -/
theorem count_neighbors_spec (rows cols : Int) (grid : Buf) (x y : Int)
    (hfit : rows * cols ≤ INT_MAX) (hlen : (grid.length : Int) = rows * cols)
    (hx0 : 0 ≤ x) (hx : x < rows) (hy0 : 0 ≤ y) (hy : y < cols) :
    (∃ n : Int, count_neighbors x y grid rows cols = some n ∧
      n = (specNeighborCount grid rows cols x y : Int) ∧ 0 ≤ n ∧ n ≤ 8) ∧
    (∀ dx dy : Int, -1 ≤ dx → dx ≤ 1 → -1 ≤ dy → dy ≤ 1 →
      fitsInt (x + dx) ∧ fitsInt (y + dy) ∧
      (x + dx ≥ 0 ∧ x + dx < rows ∧ y + dy ≥ 0 ∧ y + dy < cols →
        fitsInt ((x + dx) * cols) ∧ fitsInt ((x + dx) * cols + (y + dy)) ∧
        0 ≤ (x + dx) * cols + (y + dy) ∧ (x + dx) * cols + (y + dy) < (grid.length : Int))) ∧
    count_neighbors 1 1 [1, 1, 1, 1, 1, 1, 1, 1, 1] 3 3 = some 8 ∧
    count_neighbors 0 0 [1, 1, 1, 1, 1, 1, 1, 1, 1] 3 3 = some 3 ∧
    count_neighbors 1 0 [0, 0, 1, 0, 0, 0, 0, 0, 0] 3 3 = some 0 := by
  have hd := dims_fit (show 0 < rows by omega) (show 0 < cols by omega) hfit
  refine ⟨⟨_, count_neighbors_eq_spec x y grid rows cols hlen, rfl, Int.ofNat_nonneg _, ?_⟩,
    ?_, by decide, by decide, by decide⟩
  · exact_mod_cast specNeighborCount_le grid rows cols x y
  · intro dx dy a b c d
    refine ⟨coord_fits hx0 hx hd.1 a b, coord_fits hy0 hy hd.2 c d, ?_⟩
    rintro ⟨e, f, g, h⟩
    have hb := flat_index_bound e f g h
    have hf := flat_index_fits e f g h hfit
    exact ⟨hf.1, hf.2, hb.1, by rw [hlen]; exact hb.2⟩

/-- The count at the corner `(0, 2)` of a 2 x 3 grid with two ALIVE and one DEAD neighbour
inside the grid. -/
theorem count_neighbors_spec_witness :
    (∃ n : Int, count_neighbors 0 2 [1, 1, 0, 1, 0, 1] 2 3 = some n ∧
      n = (specNeighborCount [1, 1, 0, 1, 0, 1] 2 3 0 2 : Int) ∧ 0 ≤ n ∧ n ≤ 8) ∧
    count_neighbors 0 2 [1, 1, 0, 1, 0, 1] 2 3 = some 2 :=
  have h := count_neighbors_spec 2 3 [1, 1, 0, 1, 0, 1] 0 2 (by decide) (by decide)
    (by decide) (by decide) (by decide) (by decide)
  ⟨h.1, by decide⟩

/-- C3: `updateGrid` writes every cell of the scratch buffer: whatever two scratch buffers of
the grid's size held, the row tasks leave in both the same buffer `N`, which holds in every
cell `(i, j)` the value `stepCell` computed from the generation-N grid alone (so nothing of
the old scratch survives), and the step then publishes `N` as `grid` (with the old grid as
`new_grid`) in both runs. -/
theorem updateGrid_scratch_independent (rows cols : Int) (G S1 S2 : Buf)
    (hc : 0 < cols) (hG : (G.length : Int) = rows * cols)
    (hS1 : (S1.length : Int) = rows * cols) (hS2 : (S2.length : Int) = rows * cols) :
    ∃ N : Buf, (N.length : Int) = rows * cols ∧
      (∀ i j : Int, 0 ≤ i → i < rows → 0 ≤ j → j < cols →
        N[(i * cols + j).toNat]? = some (stepCell G rows cols i j)) ∧
      forLoop 0 rows (fun i st => rowTask rows cols i st) { grid := G, new_grid := S1 }
        = some { grid := G, new_grid := N } ∧
      forLoop 0 rows (fun i st => rowTask rows cols i st) { grid := G, new_grid := S2 }
        = some { grid := G, new_grid := N } ∧
      updateGrid rows cols { grid := G, new_grid := S1 } = some { grid := N, new_grid := G } ∧
      updateGrid rows cols { grid := G, new_grid := S2 } = some { grid := N, new_grid := G } := by
  have hnn : 0 ≤ rows * cols := by rw [← hG]; exact Int.ofNat_nonneg _
  have hrun : ∀ S : Buf, (S.length : Int) = rows * cols →
      forLoop 0 rows (fun i st => rowTask rows cols i st) { grid := G, new_grid := S }
        = some { grid := G, new_grid := stepGrid G rows cols } := by
    intro S hS
    unfold forLoop
    rw [loopFrom_eq_runInOrder]
    exact runRows_eq rows cols hc G S hG hS _
      (fun i hi => (mem_taskRows rows i).mp hi) (fun i h0 h1 => (mem_taskRows rows i).mpr ⟨h0, h1⟩)
  refine ⟨stepGrid G rows cols, ?_, ?_, hrun S1 hS1, hrun S2 hS2,
    updateGrid_eq rows cols hc G S1 hG hS1, updateGrid_eq rows cols hc G S2 hG hS2⟩
  · rw [stepGrid_length]; omega
  · intro i j hi0 hi hj0 hj
    exact stepGrid_getElem? rows cols G i j hi0 hi hj0 hj

/-- One step of a 2 x 2 grid whose only ALIVE cell dies, on two scratch buffers without a
zero: the published grid is all DEAD in both runs. -/
theorem updateGrid_scratch_independent_witness :
    (∃ N : Buf, (N.length : Int) = 2 * 2 ∧
      (∀ i j : Int, 0 ≤ i → i < 2 → 0 ≤ j → j < 2 →
        N[(i * 2 + j).toNat]? = some (stepCell [1, 0, 0, 0] 2 2 i j)) ∧
      forLoop 0 2 (fun i st => rowTask 2 2 i st) { grid := [1, 0, 0, 0], new_grid := [5, 6, 7, 8] }
        = some { grid := [1, 0, 0, 0], new_grid := N } ∧
      forLoop 0 2 (fun i st => rowTask 2 2 i st) { grid := [1, 0, 0, 0], new_grid := [1, 1, 1, 1] }
        = some { grid := [1, 0, 0, 0], new_grid := N } ∧
      updateGrid 2 2 { grid := [1, 0, 0, 0], new_grid := [5, 6, 7, 8] }
        = some { grid := N, new_grid := [1, 0, 0, 0] } ∧
      updateGrid 2 2 { grid := [1, 0, 0, 0], new_grid := [1, 1, 1, 1] }
        = some { grid := N, new_grid := [1, 0, 0, 0] }) ∧
    updateGrid 2 2 { grid := [1, 0, 0, 0], new_grid := [5, 6, 7, 8] }
      = some { grid := [0, 0, 0, 0], new_grid := [1, 0, 0, 0] } ∧
    updateGrid 2 2 { grid := [1, 0, 0, 0], new_grid := [1, 1, 1, 1] }
      = some { grid := [0, 0, 0, 0], new_grid := [1, 0, 0, 0] } :=
  ⟨updateGrid_scratch_independent 2 2 [1, 0, 0, 0] [5, 6, 7, 8] [1, 1, 1, 1]
    (by decide) (by decide) (by decide) (by decide), by decide, by decide⟩

/-! ### The exchange of roles and the order of the row tasks -/

/-- C4: `updateGrid` leaves the generation-N buffer untouched and ends with the exchange of
roles: afterwards `grid` holds generation N+1 computed from `G` (`stepCell` of `G` in every
cell) and `new_grid` holds exactly `G`; and at no point of the row tasks, whatever their
number and order, does `grid` hold anything but `G`. -/
theorem updateGrid_frame_and_swap (rows cols : Int) (G S : Buf)
    (hc : 0 < cols) (hG : (G.length : Int) = rows * cols) (hS : (S.length : Int) = rows * cols) :
    (∃ st', updateGrid rows cols { grid := G, new_grid := S } = some st' ∧
      st'.new_grid = G ∧
      (st'.grid.length : Int) = rows * cols ∧
      (∀ i j : Int, 0 ≤ i → i < rows → 0 ≤ j → j < cols →
        st'.grid[(i * cols + j).toNat]? = some (stepCell G rows cols i j)) ∧
      swap_ptr st' = { grid := G, new_grid := st'.grid }) ∧
    (∀ (tasks : List Int) (mid : Sim),
      runInOrder (fun i st => rowTask rows cols i st) tasks { grid := G, new_grid := S } = some mid →
        mid.grid = G) := by
  refine ⟨⟨_, updateGrid_eq rows cols hc G S hG hS, rfl, ?_, ?_, rfl⟩, ?_⟩
  · have hnn : 0 ≤ rows * cols := by rw [← hG]; exact Int.ofNat_nonneg _
    rw [stepGrid_length]; omega
  · intro i j hi0 hi hj0 hj
    exact stepGrid_getElem? rows cols G i j hi0 hi hj0 hj
  · intro tasks mid h
    exact runRows_grid rows cols tasks _ mid h

/-- One step of a 2 x 2 grid: the old generation ends up in `new_grid`. -/
theorem updateGrid_frame_and_swap_witness :
    (∃ st', updateGrid 2 2 { grid := [1, 1, 1, 0], new_grid := [5, 6, 7, 8] } = some st' ∧
      st'.new_grid = [1, 1, 1, 0] ∧
      (st'.grid.length : Int) = 2 * 2 ∧
      (∀ i j : Int, 0 ≤ i → i < 2 → 0 ≤ j → j < 2 →
        st'.grid[(i * 2 + j).toNat]? = some (stepCell [1, 1, 1, 0] 2 2 i j)) ∧
      swap_ptr st' = { grid := [1, 1, 1, 0], new_grid := st'.grid }) ∧
    (∀ (tasks : List Int) (mid : Sim),
      runInOrder (fun i st => rowTask 2 2 i st) tasks { grid := [1, 1, 1, 0], new_grid := [5, 6, 7, 8] }
          = some mid →
        mid.grid = [1, 1, 1, 0]) :=
  updateGrid_frame_and_swap 2 2 [1, 1, 1, 0] [5, 6, 7, 8] (by decide) (by decide) (by decide)

/-- C5: `updateGrid` is deterministic over its row units: from the same generation-N grid, on
any two scratch buffers and for any two orders in which the row tasks `0 .. rows-1` are run,
the step returns the same generation N+1, the one of the creation order; each row task reads
only `grid` and writes only the cells of its own row of the scratch buffer. -/
theorem updateGrid_order_independent (rows cols : Int) (G S1 S2 : Buf) (order1 order2 : List Int)
    (hc : 0 < cols) (hG : (G.length : Int) = rows * cols)
    (hS1 : (S1.length : Int) = rows * cols) (hS2 : (S2.length : Int) = rows * cols)
    (h1 : order1.Perm (taskRows rows)) (h2 : order2.Perm (taskRows rows)) :
    (∃ N, updateGridOrder rows cols order1 { grid := G, new_grid := S1 }
          = some { grid := N, new_grid := G } ∧
        updateGridOrder rows cols order2 { grid := G, new_grid := S2 }
          = some { grid := N, new_grid := G } ∧
        updateGrid rows cols { grid := G, new_grid := S1 } = some { grid := N, new_grid := G }) ∧
    (∀ (i : Int) (st : Sim), 0 ≤ i → i < rows → st.grid = G →
      (st.new_grid.length : Int) = rows * cols →
      ∃ st', rowTask rows cols i st = some st' ∧ st'.grid = G ∧
        (∀ j : Int, 0 ≤ j → j < cols →
          st'.new_grid[(i * cols + j).toNat]? = some (stepCell G rows cols i j)) ∧
        (∀ i' j : Int, 0 ≤ i' → i' < rows → i' ≠ i → 0 ≤ j → j < cols →
          st'.new_grid[(i' * cols + j).toNat]? = st.new_grid[(i' * cols + j).toNat]?)) := by
  have hmem : ∀ {o : List Int}, o.Perm (taskRows rows) → ∀ i, i ∈ o ↔ 0 ≤ i ∧ i < rows :=
    fun hp i => (hp.mem_iff).trans (mem_taskRows rows i)
  refine ⟨⟨stepGrid G rows cols, ?_, ?_, updateGrid_eq rows cols hc G S1 hG hS1⟩, ?_⟩
  · exact updateGridOrder_eq rows cols hc G S1 hG hS1 order1 (fun i hi => (hmem h1 i).mp hi)
      (fun i a b => (hmem h1 i).mpr ⟨a, b⟩)
  · exact updateGridOrder_eq rows cols hc G S2 hG hS2 order2 (fun i hi => (hmem h2 i).mp hi)
      (fun i a b => (hmem h2 i).mpr ⟨a, b⟩)
  · intro i st hi0 hi hg hl
    obtain ⟨st', e1, e2, _, e4, e5⟩ :=
      rowTask_footprint rows cols G st.new_grid.length hG hl i hi0 hi st hg rfl
    refine ⟨st', e1, e2, ?_, ?_⟩
    · intro j hj0 hj
      have hb := flat_index_bound hi0 hi hj0 hj
      have hcast : (((i * cols + j).toNat : Nat) : Int) = i * cols + j := Int.toNat_of_nonneg hb.1
      have := e4 _ ⟨j, hj0, hj, rfl⟩
      rw [hcast, (flat_index_div hj0 hj).1, (flat_index_div hj0 hj).2] at this
      exact this
    · intro i' j hi0' hi' hne hj0 hj
      apply e5
      rintro ⟨j', hj0', hj', heq⟩
      have hb := flat_index_bound hi0 hi hj0' hj'
      have hb' := flat_index_bound hi0' hi' hj0 hj
      have heq' : i' * cols + j = i * cols + j' := by omega
      have d1 := (flat_index_div (i := i') hj0 hj).1
      have d2 := (flat_index_div (i := i) hj0' hj').1
      rw [heq'] at d1
      exact hne (d1.symm.trans d2)

/-- One step of a 3 x 2 grid with the row tasks in the orders 2, 0, 1 and 1, 2, 0. -/
theorem updateGrid_order_independent_witness :
    (∃ N, updateGridOrder 3 2 [2, 0, 1] { grid := [1, 1, 1, 0, 0, 0], new_grid := [5, 6, 7, 8, 9, 9] }
          = some { grid := N, new_grid := [1, 1, 1, 0, 0, 0] } ∧
        updateGridOrder 3 2 [1, 2, 0] { grid := [1, 1, 1, 0, 0, 0], new_grid := [0, 0, 0, 0, 0, 0] }
          = some { grid := N, new_grid := [1, 1, 1, 0, 0, 0] } ∧
        updateGrid 3 2 { grid := [1, 1, 1, 0, 0, 0], new_grid := [5, 6, 7, 8, 9, 9] }
          = some { grid := N, new_grid := [1, 1, 1, 0, 0, 0] }) ∧
    (∀ (i : Int) (st : Sim), 0 ≤ i → i < 3 → st.grid = [1, 1, 1, 0, 0, 0] →
      (st.new_grid.length : Int) = 3 * 2 →
      ∃ st', rowTask 3 2 i st = some st' ∧ st'.grid = [1, 1, 1, 0, 0, 0] ∧
        (∀ j : Int, 0 ≤ j → j < 2 →
          st'.new_grid[(i * 2 + j).toNat]? = some (stepCell [1, 1, 1, 0, 0, 0] 3 2 i j)) ∧
        (∀ i' j : Int, 0 ≤ i' → i' < 3 → i' ≠ i → 0 ≤ j → j < 2 →
          st'.new_grid[(i' * 2 + j).toNat]? = st.new_grid[(i' * 2 + j).toNat]?)) :=
  updateGrid_order_independent 3 2 [1, 1, 1, 0, 0, 0] [5, 6, 7, 8, 9, 9] [0, 0, 0, 0, 0, 0]
    [2, 0, 1] [1, 2, 0] (by decide) (by decide) (by decide) (by decide) (by decide) (by decide)

/-! ### Grids given by a pattern -/

/-- Two buffers of `rows * cols` cells that agree on every cell `(i, j)` are equal. -/
theorem buf_ext_cells (rows cols : Int) (hc : 0 < cols) (A B : Buf)
    (hA : (A.length : Int) = rows * cols) (hB : (B.length : Int) = rows * cols)
    (h : ∀ i j : Int, 0 ≤ i → i < rows → 0 ≤ j → j < cols →
      A[(i * cols + j).toNat]? = B[(i * cols + j).toNat]?) : A = B := by
  apply List.ext_getElem?
  intro idx
  by_cases hidx : (idx : Int) < rows * cols
  · obtain ⟨a, b, c, d, e⟩ := flat_index_decompose rows hc idx hidx
    have := h _ _ a b c d
    rw [← e] at this
    exact this
  · rw [List.getElem?_eq_none (by omega), List.getElem?_eq_none (by omega)]

/-- On a grid given by a pattern `P`, a cell is ALIVE inside the grid exactly where `P` holds. -/
theorem aliveInside_pattern (rows cols : Int) (G : Buf) (P : Int → Int → Prop)
    [∀ i j, Decidable (P i j)]
    (hP : ∀ i j : Int, 0 ≤ i → i < rows → 0 ≤ j → j < cols →
      G[(i * cols + j).toNat]? = some (if P i j then 1 else 0)) (r c : Int) :
    aliveInside G rows cols r c ↔ (0 ≤ r ∧ r < rows ∧ 0 ≤ c ∧ c < cols ∧ P r c) := by
  unfold aliveInside
  constructor
  · rintro ⟨a, b, c', d, e⟩
    refine ⟨a, b, c', d, ?_⟩
    rw [hP r c a b c' d] at e
    by_contra hn
    simp [hn] at e
  · rintro ⟨a, b, c', d, e⟩
    refine ⟨a, b, c', d, ?_⟩
    rw [hP r c a b c' d, if_pos e]

/-- The value `updateGrid` gives a cell on a grid given by a pattern `P`. -/
theorem stepCell_pattern (rows cols : Int) (G : Buf) (P : Int → Int → Prop)
    [∀ i j, Decidable (P i j)] (hG : (G.length : Int) = rows * cols)
    (hP : ∀ i j : Int, 0 ≤ i → i < rows → 0 ≤ j → j < cols →
      G[(i * cols + j).toNat]? = some (if P i j then 1 else 0))
    (i j : Int) (hi0 : 0 ≤ i) (hi : i < rows) (hj0 : 0 ≤ j) (hj : j < cols) (n : Int)
    (hn : n = (if 0 ≤ i - 1 ∧ i - 1 < rows ∧ 0 ≤ j - 1 ∧ j - 1 < cols ∧ P (i - 1) (j - 1) then 1 else 0)
      + (if 0 ≤ i - 1 ∧ i - 1 < rows ∧ 0 ≤ j ∧ j < cols ∧ P (i - 1) j then 1 else 0)
      + (if 0 ≤ i - 1 ∧ i - 1 < rows ∧ 0 ≤ j + 1 ∧ j + 1 < cols ∧ P (i - 1) (j + 1) then 1 else 0)
      + (if 0 ≤ i ∧ i < rows ∧ 0 ≤ j - 1 ∧ j - 1 < cols ∧ P i (j - 1) then 1 else 0)
      + (if 0 ≤ i ∧ i < rows ∧ 0 ≤ j + 1 ∧ j + 1 < cols ∧ P i (j + 1) then 1 else 0)
      + (if 0 ≤ i + 1 ∧ i + 1 < rows ∧ 0 ≤ j - 1 ∧ j - 1 < cols ∧ P (i + 1) (j - 1) then 1 else 0)
      + (if 0 ≤ i + 1 ∧ i + 1 < rows ∧ 0 ≤ j ∧ j < cols ∧ P (i + 1) j then 1 else 0)
      + (if 0 ≤ i + 1 ∧ i + 1 < rows ∧ 0 ≤ j + 1 ∧ j + 1 < cols ∧ P (i + 1) (j + 1) then 1 else 0)) :
    count_neighbors i j G rows cols = some n ∧
    stepCell G rows cols i j =
      if P i j then (if n = 2 ∨ n = 3 then 1 else 0) else (if n = 3 then 1 else 0) := by
  have hb := flat_index_bound hi0 hi hj0 hj
  have hcnt : count_neighbors i j G rows cols = some n := by
    rw [count_neighbors_eq_sum i j G rows cols hG, hn]
    simp only [aliveInside_pattern rows cols G P hP]
  refine ⟨hcnt, ?_⟩
  have hread : readCell G (i * cols + j) = some (if P i j then 1 else 0) := by
    rw [readCell_eq_getElem? hb.1 (by omega)]
    exact hP i j hi0 hi hj0 hj
  simp only [stepCell, hcnt, hread]
  by_cases hp : P i j <;> simp [hp]

theorem blinker_step (rows cols R C : Int) (G : Buf)
    (hR1 : 1 ≤ R) (hR2 : R ≤ rows - 2) (hC1 : 1 ≤ C) (hC2 : C ≤ cols - 2)
    (hG : (G.length : Int) = rows * cols)
    (hP : ∀ i j : Int, 0 ≤ i → i < rows → 0 ≤ j → j < cols →
      G[(i * cols + j).toNat]? = some (if i = R ∧ C - 1 ≤ j ∧ j ≤ C + 1 then 1 else 0))
    (i j : Int) (hi0 : 0 ≤ i) (hi : i < rows) (hj0 : 0 ≤ j) (hj : j < cols) :
    stepCell G rows cols i j = if j = C ∧ R - 1 ≤ i ∧ i ≤ R + 1 then 1 else 0 := by
  rw [(stepCell_pattern rows cols G (fun i j => i = R ∧ C - 1 ≤ j ∧ j ≤ C + 1) hG hP
    i j hi0 hi hj0 hj _ rfl).2]
  have hi' : i < R - 1 ∨ i = R - 1 ∨ i = R ∨ i = R + 1 ∨ R + 1 < i := by omega
  have hj' : j < C - 2 ∨ j = C - 2 ∨ j = C - 1 ∨ j = C ∨ j = C + 1 ∨ j = C + 2 ∨ C + 2 < j := by
    omega
  rcases hi' with h | h | h | h | h <;> rcases hj' with h' | h' | h' | h' | h' | h' | h' <;>
    simp (disch := omega) only [if_pos, if_neg]

theorem blinker_step_back (rows cols R C : Int) (G : Buf)
    (hR1 : 1 ≤ R) (hR2 : R ≤ rows - 2) (hC1 : 1 ≤ C) (hC2 : C ≤ cols - 2)
    (hG : (G.length : Int) = rows * cols)
    (hP : ∀ i j : Int, 0 ≤ i → i < rows → 0 ≤ j → j < cols →
      G[(i * cols + j).toNat]? = some (if j = C ∧ R - 1 ≤ i ∧ i ≤ R + 1 then 1 else 0))
    (i j : Int) (hi0 : 0 ≤ i) (hi : i < rows) (hj0 : 0 ≤ j) (hj : j < cols) :
    stepCell G rows cols i j = if i = R ∧ C - 1 ≤ j ∧ j ≤ C + 1 then 1 else 0 := by
  rw [(stepCell_pattern rows cols G (fun i j => j = C ∧ R - 1 ≤ i ∧ i ≤ R + 1) hG hP
    i j hi0 hi hj0 hj _ rfl).2]
  have hj' : j < C - 1 ∨ j = C - 1 ∨ j = C ∨ j = C + 1 ∨ C + 1 < j := by omega
  have hi' : i < R - 2 ∨ i = R - 2 ∨ i = R - 1 ∨ i = R ∨ i = R + 1 ∨ i = R + 2 ∨ R + 2 < i := by
    omega
  rcases hj' with h | h | h | h | h <;> rcases hi' with h' | h' | h' | h' | h' | h' | h' <;>
    simp (disch := omega) only [if_pos, if_neg]

theorem block_step (rows cols r c : Int) (G : Buf)
    (hr1 : 1 ≤ r) (hr2 : r + 1 ≤ rows - 2) (hc1 : 1 ≤ c) (hc2 : c + 1 ≤ cols - 2)
    (hG : (G.length : Int) = rows * cols)
    (hP : ∀ i j : Int, 0 ≤ i → i < rows → 0 ≤ j → j < cols →
      G[(i * cols + j).toNat]? = some (if r ≤ i ∧ i ≤ r + 1 ∧ c ≤ j ∧ j ≤ c + 1 then 1 else 0))
    (i j : Int) (hi0 : 0 ≤ i) (hi : i < rows) (hj0 : 0 ≤ j) (hj : j < cols) :
    stepCell G rows cols i j = (if r ≤ i ∧ i ≤ r + 1 ∧ c ≤ j ∧ j ≤ c + 1 then 1 else 0) := by
  rw [(stepCell_pattern rows cols G (fun i j => r ≤ i ∧ i ≤ r + 1 ∧ c ≤ j ∧ j ≤ c + 1) hG hP
    i j hi0 hi hj0 hj _ rfl).2]
  have hi' : i < r - 1 ∨ i = r - 1 ∨ i = r ∨ i = r + 1 ∨ i = r + 2 ∨ r + 2 < i := by omega
  have hj' : j < c - 1 ∨ j = c - 1 ∨ j = c ∨ j = c + 1 ∨ j = c + 2 ∨ c + 2 < j := by omega
  rcases hi' with h | h | h | h | h | h <;> rcases hj' with h' | h' | h' | h' | h' | h' <;>
    simp (disch := omega) only [if_pos, if_neg]

theorem block_count (rows cols r c : Int) (G : Buf)
    (hr1 : 1 ≤ r) (hr2 : r + 1 ≤ rows - 2) (hc1 : 1 ≤ c) (hc2 : c + 1 ≤ cols - 2)
    (hG : (G.length : Int) = rows * cols)
    (hP : ∀ i j : Int, 0 ≤ i → i < rows → 0 ≤ j → j < cols →
      G[(i * cols + j).toNat]? = some (if r ≤ i ∧ i ≤ r + 1 ∧ c ≤ j ∧ j ≤ c + 1 then 1 else 0))
    (i j : Int) (hi : i = r ∨ i = r + 1) (hj : j = c ∨ j = c + 1) :
    count_neighbors i j G rows cols = some 3 := by
  rw [(stepCell_pattern rows cols G (fun i j => r ≤ i ∧ i ≤ r + 1 ∧ c ≤ j ∧ j ≤ c + 1) hG hP
    i j (by omega) (by omega) (by omega) (by omega) _ rfl).1]
  rcases hi with h | h <;> rcases hj with h' | h' <;>
    simp (disch := omega) only [if_pos, if_neg] <;> rfl

/-! ### Blinker, block, bounds -/

theorem lone_cell_step (rows cols x y : Int) (G : Buf)
    (hG : (G.length : Int) = rows * cols)
    (hP : ∀ i j : Int, 0 ≤ i → i < rows → 0 ≤ j → j < cols →
      G[(i * cols + j).toNat]? = some (if i = x ∧ j = y then 1 else 0))
    (hx0 : 0 ≤ x) (hx : x < rows) (hy0 : 0 ≤ y) (hy : y < cols) :
    count_neighbors x y G rows cols = some 0 ∧ stepCell G rows cols x y = 0 := by
  obtain ⟨e1, e2⟩ := stepCell_pattern rows cols G (fun i j => i = x ∧ j = y) hG hP
    x y hx0 hx hy0 hy _ rfl
  rw [e1, e2]
  have h1 : ¬ (x - 1 = x) := by omega
  have h2 : ¬ (x + 1 = x) := by omega
  have h3 : ¬ (y - 1 = y) := by omega
  have h4 : ¬ (y + 1 = y) := by omega
  simp [h1, h2, h3, h4]

/-- C6: a horizontal blinker `(R, C-1), (R, C), (R, C+1)` away from the edges, alone on the
grid, becomes the vertical blinker `(R-1, C), (R, C), (R+1, C)`, alone on the grid, after one
`updateGrid`, and the horizontal blinker again, cell for cell, after a second `updateGrid`. -/
theorem blinker_period_two (rows cols R C : Int) (G S : Buf)
    (hR1 : 1 ≤ R) (hR2 : R ≤ rows - 2) (hC1 : 1 ≤ C) (hC2 : C ≤ cols - 2)
    (hG : (G.length : Int) = rows * cols) (hS : (S.length : Int) = rows * cols)
    (hP : ∀ i j : Int, 0 ≤ i → i < rows → 0 ≤ j → j < cols →
      G[(i * cols + j).toNat]? = some (if i = R ∧ (j = C - 1 ∨ j = C ∨ j = C + 1) then 1 else 0)) :
    ∃ st1 st2, updateGrid rows cols { grid := G, new_grid := S } = some st1 ∧
      (∀ i j : Int, 0 ≤ i → i < rows → 0 ≤ j → j < cols →
        st1.grid[(i * cols + j).toNat]?
          = some (if j = C ∧ (i = R - 1 ∨ i = R ∨ i = R + 1) then 1 else 0)) ∧
      updateGrid rows cols st1 = some st2 ∧
      st2.grid = G := by
  have hc : 0 < cols := by omega
  have hnn : 0 ≤ rows * cols := by rw [← hG]; exact Int.ofNat_nonneg _
  have hP' : ∀ i j : Int, 0 ≤ i → i < rows → 0 ≤ j → j < cols →
      G[(i * cols + j).toNat]? = some (if i = R ∧ C - 1 ≤ j ∧ j ≤ C + 1 then 1 else 0) := by
    intro i j a b c d
    rw [hP i j a b c d]
    congr 1
    exact if_congr (by omega) rfl rfl
  have hN : ((stepGrid G rows cols).length : Int) = rows * cols := by
    rw [stepGrid_length]; omega
  have hNP : ∀ i j : Int, 0 ≤ i → i < rows → 0 ≤ j → j < cols →
      (stepGrid G rows cols)[(i * cols + j).toNat]?
        = some (if j = C ∧ R - 1 ≤ i ∧ i ≤ R + 1 then 1 else 0) := by
    intro i j a b c d
    rw [stepGrid_getElem? rows cols G i j a b c d,
      blinker_step rows cols R C G hR1 hR2 hC1 hC2 hG hP' i j a b c d]
  refine ⟨_, _, updateGrid_eq rows cols hc G S hG hS, ?_,
    updateGrid_eq rows cols hc (stepGrid G rows cols) G hN hG, ?_⟩
  · intro i j a b c d
    rw [hNP i j a b c d]
    congr 1
    exact if_congr (by omega) rfl rfl
  · apply buf_ext_cells rows cols hc _ _ (by rw [stepGrid_length]; omega) hG
    intro i j a b c d
    rw [stepGrid_getElem? rows cols _ i j a b c d,
      blinker_step_back rows cols R C _ hR1 hR2 hC1 hC2 hN hNP i j a b c d, hP' i j a b c d]

/-- The blinker in the middle of a 3 x 3 grid. -/
theorem blinker_period_two_witness :
    ∃ st1 st2, updateGrid 3 3 { grid := [0, 0, 0, 1, 1, 1, 0, 0, 0], new_grid := [7, 7, 7, 7, 7, 7, 7, 7, 7] }
        = some st1 ∧
      (∀ i j : Int, 0 ≤ i → i < 3 → 0 ≤ j → j < 3 →
        st1.grid[(i * 3 + j).toNat]?
          = some (if j = 1 ∧ (i = 1 - 1 ∨ i = 1 ∨ i = 1 + 1) then 1 else 0)) ∧
      updateGrid 3 3 st1 = some st2 ∧
      st2.grid = [0, 0, 0, 1, 1, 1, 0, 0, 0] :=
  blinker_period_two 3 3 1 1 [0, 0, 0, 1, 1, 1, 0, 0, 0] [7, 7, 7, 7, 7, 7, 7, 7, 7]
    (by decide) (by decide) (by decide) (by decide) (by decide) (by decide)
    (by
      intro i j a b c d
      interval_cases i <;> interval_cases j <;> decide)

/-- C7: a 2 x 2 block `(r, c), (r, c+1), (r+1, c), (r+1, c+1)` away from every edge, alone on
the grid: each of its four cells has exactly 3 ALIVE neighbours, and the grid after one
`updateGrid` equals the grid before it, cell for cell. -/
theorem block_still_life (rows cols r c : Int) (G S : Buf)
    (hr1 : 1 ≤ r) (hr2 : r + 1 ≤ rows - 2) (hc1 : 1 ≤ c) (hc2 : c + 1 ≤ cols - 2)
    (hG : (G.length : Int) = rows * cols) (hS : (S.length : Int) = rows * cols)
    (hP : ∀ i j : Int, 0 ≤ i → i < rows → 0 ≤ j → j < cols →
      G[(i * cols + j).toNat]?
        = some (if (i = r ∧ j = c) ∨ (i = r ∧ j = c + 1) ∨ (i = r + 1 ∧ j = c) ∨
            (i = r + 1 ∧ j = c + 1) then 1 else 0)) :
    count_neighbors r c G rows cols = some 3 ∧
    count_neighbors r (c + 1) G rows cols = some 3 ∧
    count_neighbors (r + 1) c G rows cols = some 3 ∧
    count_neighbors (r + 1) (c + 1) G rows cols = some 3 ∧
    ∃ st1, updateGrid rows cols { grid := G, new_grid := S } = some st1 ∧ st1.grid = G := by
  have hc : 0 < cols := by omega
  have hnn : 0 ≤ rows * cols := by rw [← hG]; exact Int.ofNat_nonneg _
  have hP' : ∀ i j : Int, 0 ≤ i → i < rows → 0 ≤ j → j < cols →
      G[(i * cols + j).toNat]? = some (if r ≤ i ∧ i ≤ r + 1 ∧ c ≤ j ∧ j ≤ c + 1 then 1 else 0) := by
    intro i j a b c' d
    rw [hP i j a b c' d]
    congr 1
    exact if_congr (by omega) rfl rfl
  refine ⟨block_count rows cols r c G hr1 hr2 hc1 hc2 hG hP' _ _ (Or.inl rfl) (Or.inl rfl),
    block_count rows cols r c G hr1 hr2 hc1 hc2 hG hP' _ _ (Or.inl rfl) (Or.inr rfl),
    block_count rows cols r c G hr1 hr2 hc1 hc2 hG hP' _ _ (Or.inr rfl) (Or.inl rfl),
    block_count rows cols r c G hr1 hr2 hc1 hc2 hG hP' _ _ (Or.inr rfl) (Or.inr rfl),
    _, updateGrid_eq rows cols hc G S hG hS, ?_⟩
  apply buf_ext_cells rows cols hc _ _ (by rw [stepGrid_length]; omega) hG
  intro i j a b c' d
  rw [stepGrid_getElem? rows cols _ i j a b c' d,
    block_step rows cols r c G hr1 hr2 hc1 hc2 hG hP' i j a b c' d, hP' i j a b c' d]

/-- The block in the middle of a 4 x 4 grid. -/
theorem block_still_life_witness :
    count_neighbors 1 1 [0, 0, 0, 0, 0, 1, 1, 0, 0, 1, 1, 0, 0, 0, 0, 0] 4 4 = some 3 ∧
    count_neighbors 1 (1 + 1) [0, 0, 0, 0, 0, 1, 1, 0, 0, 1, 1, 0, 0, 0, 0, 0] 4 4 = some 3 ∧
    count_neighbors (1 + 1) 1 [0, 0, 0, 0, 0, 1, 1, 0, 0, 1, 1, 0, 0, 0, 0, 0] 4 4 = some 3 ∧
    count_neighbors (1 + 1) (1 + 1) [0, 0, 0, 0, 0, 1, 1, 0, 0, 1, 1, 0, 0, 0, 0, 0] 4 4 = some 3 ∧
    ∃ st1, updateGrid 4 4
        { grid := [0, 0, 0, 0, 0, 1, 1, 0, 0, 1, 1, 0, 0, 0, 0, 0], new_grid := List.replicate 16 1 }
        = some st1 ∧
      st1.grid = [0, 0, 0, 0, 0, 1, 1, 0, 0, 1, 1, 0, 0, 0, 0, 0] :=
  block_still_life 4 4 1 1 [0, 0, 0, 0, 0, 1, 1, 0, 0, 1, 1, 0, 0, 0, 0, 0]
    (List.replicate 16 1)
    (by decide) (by decide) (by decide) (by decide) (by decide) (by decide)
    (by
      intro i j a b c d
      interval_cases i <;> interval_cases j <;> decide)

/-- C8: on buffers of `rows * cols` cells, a number that is an `int`, no read of
`count_neighbors` and no read or write of `updateGrid` leaves the buffer: both return a value
(the failure value stands for an access outside `[0, rows * cols)` and for nothing else), and
every flat index they form from a cell inside the grid is an `int`, as is the product it is
formed from, and lies in `[0, rows * cols)`; the coordinates `x + dx`, `y + dy` are `int`s.
An ALIVE cell alone on the grid, in a corner or elsewhere, has neighbour count 0 and is DEAD
after the step. -/
theorem engine_accesses_in_bounds (rows cols : Int) (grid S : Buf) (x y : Int)
    (hfit : rows * cols ≤ INT_MAX)
    (hlen : (grid.length : Int) = rows * cols) (hS : (S.length : Int) = rows * cols)
    (hx0 : 0 ≤ x) (hx : x < rows) (hy0 : 0 ≤ y) (hy : y < cols) :
    (∃ n, count_neighbors x y grid rows cols = some n) ∧
    (∃ st', updateGrid rows cols { grid := grid, new_grid := S } = some st') ∧
    (∀ nx ny : Int, nx ≥ 0 ∧ nx < rows ∧ ny ≥ 0 ∧ ny < cols →
      fitsInt (nx * cols) ∧ fitsInt (nx * cols + ny) ∧
      0 ≤ nx * cols + ny ∧ nx * cols + ny < rows * cols) ∧
    (∀ dx dy : Int, -1 ≤ dx → dx ≤ 1 → -1 ≤ dy → dy ≤ 1 → fitsInt (x + dx) ∧ fitsInt (y + dy)) ∧
    (∀ idx : Int, readCell grid idx = none ↔ ¬ (0 ≤ idx ∧ idx < rows * cols)) ∧
    (∀ (buf : Buf) (idx v : Int), (buf.length : Int) = rows * cols →
      (writeCell buf idx v = none ↔ ¬ (0 ≤ idx ∧ idx < rows * cols))) ∧
    ((∀ i j : Int, 0 ≤ i → i < rows → 0 ≤ j → j < cols →
        grid[(i * cols + j).toNat]? = some (if i = x ∧ j = y then 1 else 0)) →
      count_neighbors x y grid rows cols = some 0 ∧
      ∃ st', updateGrid rows cols { grid := grid, new_grid := S } = some st' ∧
        st'.grid[(x * cols + y).toNat]? = some 0) := by
  have hc : 0 < cols := by omega
  have hd := dims_fit (show 0 < rows by omega) hc hfit
  refine ⟨⟨_, count_neighbors_eq_spec x y grid rows cols hlen⟩,
    ⟨_, updateGrid_eq rows cols hc grid S hlen hS⟩, ?_, ?_, ?_, ?_, ?_⟩
  · rintro nx ny ⟨a, b, c, d⟩
    have hb := flat_index_bound a b c d
    have hf := flat_index_fits a b c d hfit
    exact ⟨hf.1, hf.2, hb.1, hb.2⟩
  · intro dx dy a b c d
    exact ⟨coord_fits hx0 hx hd.1 a b, coord_fits hy0 hy hd.2 c d⟩
  · intro idx
    by_cases h : 0 ≤ idx ∧ idx < rows * cols
    · obtain ⟨v, hv, _⟩ := readCell_some grid h.1 (by omega)
      simp [hv, h]
    · have h' : ¬ (0 ≤ idx ∧ idx < (grid.length : Int)) := by rw [hlen]; exact h
      simp [readCell, h', h]
  · intro buf idx v hb
    by_cases h : 0 ≤ idx ∧ idx < rows * cols
    · simp [@writeCell_eq_set buf idx v h.1 (by omega), h]
    · have h' : ¬ (0 ≤ idx ∧ idx < (buf.length : Int)) := by rw [hb]; exact h
      simp [writeCell, h', h]
  · intro hP
    obtain ⟨e1, e2⟩ := lone_cell_step rows cols x y grid hlen hP hx0 hx hy0 hy
    refine ⟨e1, _, updateGrid_eq rows cols hc grid S hlen hS, ?_⟩
    simp only [stepGrid_getElem? rows cols grid x y hx0 hx hy0 hy, e2]


/-- A 2 x 3 grid whose only ALIVE cell is the corner `(1, 2)`. -/
theorem engine_accesses_in_bounds_witness :
    (∃ n, count_neighbors 1 2 [0, 0, 0, 0, 0, 1] 2 3 = some n) ∧
    (∃ st', updateGrid 2 3 { grid := [0, 0, 0, 0, 0, 1], new_grid := [4, 4, 4, 4, 4, 4] } = some st') ∧
    (count_neighbors 1 2 [0, 0, 0, 0, 0, 1] 2 3 = some 0 ∧
      ∃ st', updateGrid 2 3 { grid := [0, 0, 0, 0, 0, 1], new_grid := [4, 4, 4, 4, 4, 4] } = some st' ∧
        st'.grid[((1 : Int) * 3 + 2).toNat]? = some 0) :=
  have h := engine_accesses_in_bounds 2 3 [0, 0, 0, 0, 0, 1] [4, 4, 4, 4, 4, 4] 1 2
    (by decide) (by decide) (by decide) (by decide) (by decide) (by decide) (by decide)
  ⟨h.1, h.2.1, h.2.2.2.2.2.2
    (by
      intro i j a b c d
      interval_cases i <;> interval_cases j <;> decide)⟩

/-! ### Reading lines -/

theorem getline_none {text : List Char} (h : getline text = none) : fileLines text = [] := by
  cases text with
  | nil => rfl
  | cons c cs =>
    simp only [getline] at h
    split at h
    · contradiction
    · split at h <;> contradiction

theorem getline_some {text line rest : List Char} (h : getline text = some (line, rest)) :
    fileLines text = line :: fileLines rest := by
  induction text generalizing line rest with
  | nil => simp [getline] at h
  | cons c cs ih =>
    simp only [getline] at h
    by_cases hc : c = '\n'
    · simp only [if_pos hc, Option.some.injEq, Prod.mk.injEq] at h
      obtain ⟨rfl, rfl⟩ := h
      simp only [fileLines, if_pos hc]
    · simp only [if_neg hc] at h
      cases hg : getline cs with
      | none =>
        rw [hg] at h
        simp only [Option.some.injEq, Prod.mk.injEq] at h
        obtain ⟨rfl, rfl⟩ := h
        simp only [fileLines, if_neg hc, getline_none hg]
      | some p =>
        obtain ⟨l, r⟩ := p
        rw [hg] at h
        simp only [Option.some.injEq, Prod.mk.injEq] at h
        obtain ⟨rfl, rfl⟩ := h
        simp only [fileLines, if_neg hc, ih hg]

/-- Invariant rule for the counted loop with errors. -/
theorem loopFromE_inv {σ ε : Type} (body : Int → σ → Except ε σ) (P : Int → σ → Prop)
    (Q : ε → Prop) (n : Nat) (lo : Int) (s : σ) (h0 : P lo s)
    (hstep : ∀ k s, lo ≤ k → k < lo + n → P k s →
      (∀ s', body k s = .ok s' → P (k + 1) s') ∧ (∀ e, body k s = .error e → Q e)) :
    (∀ s', loopFromE body n lo s = .ok s' → P (lo + n) s') ∧
    (∀ e, loopFromE body n lo s = .error e → Q e) := by
  induction n generalizing lo s with
  | zero =>
    simp only [loopFromE]
    refine ⟨fun s' h => ?_, fun e h => ?_⟩
    · cases h; simpa using h0
    · cases h
  | succ n ih =>
    have h1 := hstep lo s (le_refl _) (by push_cast; omega) h0
    simp only [loopFromE]
    cases hb : body lo s with
    | error e =>
      refine ⟨fun s' h => ?_, fun e' h => ?_⟩
      · cases h
      · cases h; exact h1.2 e hb
    | ok s1 =>
      have h2 := ih (lo + 1) s1 (h1.1 s1 hb)
        (fun k s hk1 hk2 hp => hstep k s (by omega) (by push_cast; omega) hp)
      have e : lo + 1 + (n : Int) = lo + ((n + 1 : Nat) : Int) := by push_cast; ring
      rw [e] at h2
      exact h2

/-! ### Loading one line -/

theorem strAt_cases (ln : List Char) (j : Int) (hj : 0 ≤ j) :
    (j < ln.length ∧ ∃ ch, ln[j.toNat]? = some ch ∧ strAt ln j = some ch) ∨
    (j = ln.length ∧ ln[j.toNat]? = none ∧ strAt ln j = some (Char.ofNat 0)) ∨
    ((ln.length : Int) < j ∧ strAt ln j = none) := by
  unfold strAt
  by_cases h1 : j < ln.length
  · left
    have hlt : j.toNat < ln.length := by omega
    refine ⟨h1, ln[j.toNat], List.getElem?_eq_getElem hlt, ?_⟩
    rw [if_pos ⟨hj, h1⟩]; exact List.getElem?_eq_getElem hlt
  · by_cases h2 : j = ln.length
    · right; left
      refine ⟨h2, List.getElem?_eq_none (by omega), ?_⟩
      rw [if_neg (fun h => h1 h.2), if_pos h2]
    · right; right
      refine ⟨by omega, ?_⟩
      rw [if_neg (fun h => h1 h.2), if_neg h2]

/-- One line of the load: either every one of the first `cols` characters of the line is
`.` or `X` and the cells of row `i` hold their decoding, the other cells being untouched,
or the load exits and some position below `cols` holds no `.` and no `X`. -/
theorem loadLine_outcome (rows cols i : Int) (ln : List Char) (g0 : Buf)
    (hi0 : 0 ≤ i) (hi : i < rows) (hc : 0 ≤ cols) (hlen : (g0.length : Int) = rows * cols) :
    (∀ g, forLoopE 0 cols (fun j g => loadCell cols ln i j g) g0 = .ok g →
      (g.length : Int) = rows * cols ∧
        (∀ j : Int, 0 ≤ j → j < cols → ∃ ch, ln[j.toNat]? = some ch ∧ (ch = '.' ∨ ch = 'X') ∧
          g[(i * cols + j).toNat]? = some (if ch = 'X' then 1 else 0)) ∧
        (∀ idx : Nat, (∀ j : Int, 0 ≤ j → j < cols → idx ≠ (i * cols + j).toNat) →
          g[idx]? = g0[idx]?)) ∧
    (∀ e, forLoopE 0 cols (fun j g => loadCell cols ln i j g) g0 = .error e →
      e.isExit = true ∧
        ∃ j : Int, 0 ≤ j ∧ j < cols ∧ ∀ ch, ln[j.toNat]? = some ch → ch ≠ '.' ∧ ch ≠ 'X') := by
  have key := loopFromE_inv (fun j g => loadCell cols ln i j g)
    (fun (k : Int) (g : Buf) => (g.length : Int) = rows * cols ∧
        (∀ j : Int, 0 ≤ j → j < k → ∃ ch, ln[j.toNat]? = some ch ∧ (ch = '.' ∨ ch = 'X') ∧
          g[(i * cols + j).toNat]? = some (if ch = 'X' then 1 else 0)) ∧
        (∀ idx : Nat, (∀ j : Int, 0 ≤ j → j < cols → idx ≠ (i * cols + j).toNat) →
          g[idx]? = g0[idx]?))
    (fun e => e.isExit = true ∧
        ∃ j : Int, 0 ≤ j ∧ j < cols ∧ ∀ ch, ln[j.toNat]? = some ch → ch ≠ '.' ∧ ch ≠ 'X')
    (cols - 0).toNat 0 g0 ⟨hlen, fun j a b => absurd a (by omega), fun _ _ => rfl⟩ ?_
  · have e : (0 : Int) + ((cols - 0).toNat : Int) = cols := by omega
    rw [e] at key
    exact key
  · intro j g hj0 hj1 ⟨hl, hdone, hframe⟩
    have hj : j < cols := by omega
    have hb := flat_index_bound hi0 hi hj0 hj
    have hw : ∀ v, writeCell g (i * cols + j) v = some (g.set (i * cols + j).toNat v) :=
      fun v => writeCell_eq_set hb.1 (by omega)
    have hlt : (i * cols + j).toNat < g.length := by omega
    have good : ∀ (ch : Char) (v : Int), ln[j.toNat]? = some ch → (ch = '.' ∨ ch = 'X') →
        v = (if ch = 'X' then 1 else 0) →
        ((g.set (i * cols + j).toNat v).length : Int) = rows * cols ∧
        (∀ j' : Int, 0 ≤ j' → j' < j + 1 → ∃ ch, ln[j'.toNat]? = some ch ∧ (ch = '.' ∨ ch = 'X') ∧
          (g.set (i * cols + j).toNat v)[(i * cols + j').toNat]? = some (if ch = 'X' then 1 else 0)) ∧
        (∀ idx : Nat, (∀ j : Int, 0 ≤ j → j < cols → idx ≠ (i * cols + j).toNat) →
          (g.set (i * cols + j).toNat v)[idx]? = g0[idx]?) := by
      intro ch v hch hgood hv
      refine ⟨by rw [List.length_set]; exact hl, ?_, ?_⟩
      · intro j' hj0' hj1'
        by_cases hjj : j' = j
        · subst hjj
          exact ⟨ch, hch, hgood, by rw [List.getElem?_set_self hlt, hv]⟩
        · obtain ⟨ch', h1, h2, h3⟩ := hdone j' hj0' (by omega)
          have hb' := flat_index_bound hi0 hi hj0' (show j' < cols by omega)
          refine ⟨ch', h1, h2, ?_⟩
          rw [List.getElem?_set_ne (by omega)]
          exact h3
      · intro idx hidx
        rw [List.getElem?_set_ne (Ne.symm (hidx j hj0 hj))]
        exact hframe idx hidx
    rcases strAt_cases ln j hj0 with ⟨_, ch, hch, hs⟩ | ⟨hjl, hnone, hs⟩ | ⟨hjl, hs⟩
    · simp only [loadCell, hs]
      by_cases h1 : ch = '.'
      · simp only [if_pos h1, hw]
        refine ⟨fun s' h => ?_, fun e h => by cases h⟩
        cases h
        exact good ch 0 hch (Or.inl h1) (by subst h1; decide)
      · by_cases h2 : ch = 'X'
        · simp only [if_neg h1, if_pos h2, hw]
          refine ⟨fun s' h => ?_, fun e h => by cases h⟩
          cases h
          exact good ch 1 hch (Or.inr h2) (by subst h2; decide)
        · simp only [if_neg h1, if_neg h2]
          refine ⟨fun _ h => (by cases h), fun e h => ?_⟩
          cases h
          refine ⟨rfl, j, hj0, hj, ?_⟩
          intro ch' hch'
          rw [hch] at hch'
          cases hch'
          exact ⟨h1, h2⟩
    · simp only [loadCell, hs]
      have n1 : ¬ (Char.ofNat 0 = '.') := by decide
      have n2 : ¬ (Char.ofNat 0 = 'X') := by decide
      simp only [if_neg n1, if_neg n2]
      refine ⟨fun _ h => (by cases h), fun e h => ?_⟩
      cases h
      refine ⟨rfl, j, hj0, hj, ?_⟩
      intro ch' hch'
      rw [hnone] at hch'
      cases hch'
    · exfalso
      obtain ⟨ch, h1, _⟩ := hdone (ln.length : Int) (by omega) hjl
      rw [List.getElem?_eq_none (by simp)] at h1
      cases h1

/-! ### Loading the grid -/

theorem drop_eq_cons {α : Type} (l : List α) (n : Nat) (a : α) (t : List α)
    (h : l.drop n = a :: t) : l[n]? = some a ∧ l.drop (n + 1) = t ∧ n < l.length := by
  induction l generalizing n with
  | nil => simp at h
  | cons x xs ih =>
    cases n with
    | zero =>
      simp only [List.drop_zero, List.cons.injEq] at h
      obtain ⟨rfl, rfl⟩ := h
      simp
    | succ m =>
      simp only [List.drop_succ_cons] at h
      obtain ⟨h1, h2, h3⟩ := ih m h
      refine ⟨?_, ?_, ?_⟩
      · rw [List.getElem?_cons_succ]; exact h1
      · rw [List.drop_succ_cons]; exact h2
      · rw [List.length_cons]; omega

theorem charAt_eq {ls : List (List Char)} {i j : Int} {ln : List Char}
    (hi : 0 ≤ i) (hj : 0 ≤ j) (h : ls[i.toNat]? = some ln) : charAt ls i j = ln[j.toNat]? := by
  simp only [charAt, if_pos (And.intro hi hj), h]

/-- What a load can end in: either it returns, the text has at least `rows` lines, and every
cell `(i, j)` holds the decoding of character `j` of line `i`, which is `.` or `X`; or it
exits, and the text has fewer than `rows` lines or some position `(i, j)` of the block holds
no `.` and no `X`. It never leaves the buffer or a line. -/
theorem load_outcome (rows cols : Int) (text : List Char) (grid : Buf)
    (hr : 0 ≤ rows) (hc : 0 ≤ cols) (hlen : (grid.length : Int) = rows * cols) :
    (∀ g, initializeGridFromFile (some text) grid rows cols = .ok g →
      (g.length : Int) = rows * cols ∧ rows ≤ (fileLines text).length ∧
      ∀ i j : Int, 0 ≤ i → i < rows → 0 ≤ j → j < cols →
        ∃ ch, charAt (fileLines text) i j = some ch ∧ (ch = '.' ∨ ch = 'X') ∧
          g[(i * cols + j).toNat]? = some (if ch = 'X' then 1 else 0)) ∧
    (∀ e, initializeGridFromFile (some text) grid rows cols = .error e →
      e.isExit = true ∧
      (((fileLines text).length : Int) < rows ∨
        ∃ i j : Int, 0 ≤ i ∧ i < rows ∧ 0 ≤ j ∧ j < cols ∧
          ∀ ch, charAt (fileLines text) i j = some ch → ch ≠ '.' ∧ ch ≠ 'X')) := by
  have key := loopFromE_inv (fun i st => loadRow cols i st)
    (fun (k : Int) (st : List Char × Buf) =>
      0 ≤ k ∧ k ≤ (fileLines text).length ∧ fileLines st.1 = (fileLines text).drop k.toNat ∧
      (st.2.length : Int) = rows * cols ∧
      ∀ i j : Int, 0 ≤ i → i < k → 0 ≤ j → j < cols →
        ∃ ch, charAt (fileLines text) i j = some ch ∧ (ch = '.' ∨ ch = 'X') ∧
          st.2[(i * cols + j).toNat]? = some (if ch = 'X' then 1 else 0))
    (fun e => e.isExit = true ∧
      (((fileLines text).length : Int) < rows ∨
        ∃ i j : Int, 0 ≤ i ∧ i < rows ∧ 0 ≤ j ∧ j < cols ∧
          ∀ ch, charAt (fileLines text) i j = some ch → ch ≠ '.' ∧ ch ≠ 'X'))
    (rows - 0).toNat 0 (text, grid)
    ⟨le_refl _, Int.ofNat_nonneg _, rfl, hlen, fun i j a b => absurd a (by omega)⟩ ?_
  · have e : (0 : Int) + ((rows - 0).toNat : Int) = rows := by omega
    rw [e] at key
    simp only [initializeGridFromFile, forLoopE]
    constructor
    · intro g hg
      cases hl : loopFromE (fun i st => loadRow cols i st) (rows - 0).toNat 0 (text, grid) with
      | error e => rw [hl] at hg; cases hg
      | ok st =>
        rw [hl] at hg
        cases hg
        obtain ⟨_, h2, _, h4, h5⟩ := key.1 st hl
        exact ⟨h4, h2, h5⟩
    · intro e he
      cases hl : loopFromE (fun i st => loadRow cols i st) (rows - 0).toNat 0 (text, grid) with
      | error e' =>
        rw [hl] at he
        cases he
        exact key.2 e hl
      | ok st => rw [hl] at he; cases he
  · rintro i ⟨rest, g⟩ hi0 hi1 ⟨_, hle, hdrop, hl, hcells⟩
    have hi : i < rows := by omega
    simp only at hdrop hl hcells
    simp only [loadRow]
    cases hgl : getline rest with
    | none =>
      refine ⟨fun _ h => (by cases h), fun e h => ?_⟩
      cases h
      refine ⟨rfl, Or.inl ?_⟩
      have h0 := getline_none hgl
      rw [hdrop, List.drop_eq_nil_iff] at h0
      omega
    | some p =>
      obtain ⟨ln, rest'⟩ := p
      have h0 := getline_some hgl
      rw [hdrop] at h0
      obtain ⟨hln, hdrop', hlt⟩ := drop_eq_cons _ _ _ _ h0
      have inner := loadLine_outcome rows cols i ln g hi0 hi hc hl
      simp only
      cases hin : forLoopE 0 cols (fun j g => loadCell cols ln i j g) g with
      | error e =>
        refine ⟨fun _ h => (by cases h), fun e' h => ?_⟩
        cases h
        obtain ⟨h1, j, hj0, hj, hbad⟩ := inner.2 e hin
        refine ⟨h1, Or.inr ⟨i, j, hi0, hi, hj0, hj, ?_⟩⟩
        intro ch hch
        rw [charAt_eq hi0 hj0 hln] at hch
        exact hbad ch hch
      | ok g' =>
        refine ⟨fun s' h => ?_, fun _ h => (by cases h)⟩
        cases h
        obtain ⟨h1, h2, h3⟩ := inner.1 g' hin
        have e1 : (i + 1).toNat = i.toNat + 1 := by omega
        refine ⟨by omega, by omega, by rw [e1]; exact hdrop'.symm, h1, ?_⟩
        intro i' j hi0' hi1' hj0 hj
        by_cases hii : i' = i
        · subst hii
          obtain ⟨ch, a, b, c⟩ := h2 j hj0 hj
          exact ⟨ch, by rw [charAt_eq hi0 hj0 hln]; exact a, b, c⟩
        · obtain ⟨ch, a, b, c⟩ := hcells i' j hi0' (by omega) hj0 hj
          refine ⟨ch, a, b, ?_⟩
          rw [h3 _ ?_]
          · exact c
          · intro j' hj0' hj' heq
            have hb := flat_index_bound hi0 hi hj0' hj'
            have hb' := flat_index_bound hi0' (show i' < rows by omega) hj0 hj
            have heq' : i' * cols + j = i * cols + j' := by omega
            have d1 := (flat_index_div (i := i') hj0 hj).1
            have d2 := (flat_index_div (i := i) hj0' hj').1
            rw [heq'] at d1
            exact hii (d1.symm.trans d2)

/-! ### Validation and decoding -/

/-- C9, as stated, fails: with `rows = 1` and `cols = 1` the load accepts a text whose only
line is `XY` (a line with a character other than `.` and `X`), a text with a second line `Y`,
and a text with an empty second line (a line shorter than `cols`). -/
theorem load_validation_counterexample :
    ((∃ l ∈ fileLines ['X', 'Y'], ∃ ch ∈ l, ch ≠ '.' ∧ ch ≠ 'X') ∧
      initializeGridFromFile (some ['X', 'Y']) [0] 1 1 = .ok [1]) ∧
    ((∃ l ∈ fileLines ['X', '\n', 'Y'], ∃ ch ∈ l, ch ≠ '.' ∧ ch ≠ 'X') ∧
      initializeGridFromFile (some ['X', '\n', 'Y']) [0] 1 1 = .ok [1]) ∧
    ((∃ l ∈ fileLines ['X', '\n', '\n'], (l.length : Int) < 1) ∧
      initializeGridFromFile (some ['X', '\n', '\n']) [0] 1 1 = .ok [1]) := by
  decide

/-- The load exits whenever the block of the first `rows` lines and first `cols` columns is
incomplete or holds a character other than `.` and `X`. -/
theorem load_exits_on_bad_block (rows cols : Int) (text : List Char) (grid : Buf)
    (hr : 0 < rows) (hc : 0 < cols) (hlen : (grid.length : Int) = rows * cols)
    (hbad : (∃ (i j : Int) (ch : Char), 0 ≤ i ∧ i < rows ∧ 0 ≤ j ∧ j < cols ∧
        charAt (fileLines text) i j = some ch ∧ ch ≠ '.' ∧ ch ≠ 'X') ∨
      (∃ (i : Int) (l : List Char), 0 ≤ i ∧ i < rows ∧ (fileLines text)[i.toNat]? = some l ∧
        (l.length : Int) < cols) ∨
      ((fileLines text).length : Int) < rows) :
    ∃ e, initializeGridFromFile (some text) grid rows cols = .error e ∧ e.isExit = true := by
  obtain ⟨hok, herr⟩ := load_outcome rows cols text grid (le_of_lt hr) (le_of_lt hc) hlen
  cases hres : initializeGridFromFile (some text) grid rows cols with
  | error e => exact ⟨e, rfl, (herr e hres).1⟩
  | ok g =>
    exfalso
    obtain ⟨_, hrows, hcells⟩ := hok g hres
    rcases hbad with ⟨i, j, ch, hi0, hi, hj0, hj, hch, h1, h2⟩ | ⟨i, l, hi0, hi, hl, hshort⟩ | hfew
    · obtain ⟨ch', a, b, _⟩ := hcells i j hi0 hi hj0 hj
      rw [hch] at a
      cases a
      rcases b with b | b
      · exact h1 b
      · exact h2 b
    · obtain ⟨ch', a, _⟩ := hcells i (l.length : Int) hi0 hi (Int.ofNat_nonneg _) hshort
      rw [charAt_eq hi0 (Int.ofNat_nonneg _) hl, List.getElem?_eq_none (by simp)] at a
      cases a
    · omega

/-- Every counter, product and flat index the load forms for a cell of the grid is an `int`
whenever the number of cells of the grid is an `int`. -/
theorem load_arithmetic_fits (rows cols : Int) (hr : 0 < rows) (hc : 0 < cols)
    (hfit : rows * cols ≤ INT_MAX) (i j : Int) (hi0 : 0 ≤ i) (hi : i < rows) (hj0 : 0 ≤ j)
    (hj : j < cols) :
    fitsInt (i + 1) ∧ fitsInt (j + 1) ∧ fitsInt (i * cols) ∧ fitsInt (i * cols + j) := by
  have hd := dims_fit hr hc hfit
  have hf := flat_index_fits hi0 hi hj0 hj hfit
  exact ⟨coord_fits hi0 hi hd.1 (by decide) (le_refl _),
    coord_fits hj0 hj hd.2 (by decide) (le_refl _), hf.1, hf.2⟩

/-- C9, amended: for a grid of `rows * cols` cells, a number that is an `int`, the load ends
in `exit(EXIT_FAILURE)`, accepting no grid, whenever one of the first `rows` lines has among
its first `cols` characters one other than `.` and `X`, or one of the first `rows` lines is
shorter than `cols` characters, or the text has fewer than `rows` lines; every counter,
product and flat index the load forms on the way is an `int`. -/
theorem load_rejects (rows cols : Int) (text : List Char) (grid : Buf)
    (hr : 0 < rows) (hc : 0 < cols) (hfit : rows * cols ≤ INT_MAX)
    (hlen : (grid.length : Int) = rows * cols)
    (hbad : (∃ (i j : Int) (ch : Char), 0 ≤ i ∧ i < rows ∧ 0 ≤ j ∧ j < cols ∧
        charAt (fileLines text) i j = some ch ∧ ch ≠ '.' ∧ ch ≠ 'X') ∨
      (∃ (i : Int) (l : List Char), 0 ≤ i ∧ i < rows ∧ (fileLines text)[i.toNat]? = some l ∧
        (l.length : Int) < cols) ∨
      ((fileLines text).length : Int) < rows) :
    (∃ e, initializeGridFromFile (some text) grid rows cols = .error e ∧ e.isExit = true) ∧
    (∀ i j : Int, 0 ≤ i → i < rows → 0 ≤ j → j < cols →
      fitsInt (i + 1) ∧ fitsInt (j + 1) ∧ fitsInt (i * cols) ∧ fitsInt (i * cols + j)) :=
  ⟨load_exits_on_bad_block rows cols text grid hr hc hlen hbad,
    fun i j hi0 hi hj0 hj => load_arithmetic_fits rows cols hr hc hfit i j hi0 hi hj0 hj⟩

/-- Three 2 x 2 loads: a `Y` in the second line (the exit names it), a second line of one
character, and a text of one line. -/
theorem load_rejects_witness :
    initializeGridFromFile (some ['X', '.', '\n', 'X', 'Y', '\n']) [0, 0, 0, 0] 2 2
      = .error (.invalidChar 'Y') ∧
    (∃ e, initializeGridFromFile (some ['X', '.', '\n', 'X', 'Y', '\n']) [0, 0, 0, 0] 2 2 = .error e ∧
      e.isExit = true) ∧
    (∃ e, initializeGridFromFile (some ['X', '.', '\n', 'X', '\n']) [0, 0, 0, 0] 2 2 = .error e ∧
      e.isExit = true) ∧
    (∃ e, initializeGridFromFile (some ['X', '.', '\n']) [0, 0, 0, 0] 2 2 = .error e ∧
      e.isExit = true) :=
  ⟨by decide,
    (load_rejects 2 2 ['X', '.', '\n', 'X', 'Y', '\n'] [0, 0, 0, 0] (by decide) (by decide)
      (by decide) (by decide) (Or.inl ⟨1, 1, 'Y', by decide⟩)).1,
    (load_rejects 2 2 ['X', '.', '\n', 'X', '\n'] [0, 0, 0, 0] (by decide) (by decide)
      (by decide) (by decide) (Or.inr (Or.inl ⟨1, ['X'], by decide⟩))).1,
    (load_rejects 2 2 ['X', '.', '\n'] [0, 0, 0, 0] (by decide) (by decide)
      (by decide) (by decide) (Or.inr (Or.inr (by decide)))).1⟩

/-- The load returns the decoded grid on a text of exactly `rows` lines of exactly `cols`
characters `.` or `X`. -/
theorem load_returns_on_good_text (rows cols : Int) (text : List Char) (grid : Buf)
    (hr : 0 < rows) (hc : 0 < cols) (hlen : (grid.length : Int) = rows * cols)
    (hrows : ((fileLines text).length : Int) = rows)
    (hline : ∀ l ∈ fileLines text, (l.length : Int) = cols ∧ ∀ ch ∈ l, ch = '.' ∨ ch = 'X') :
    ∃ g, initializeGridFromFile (some text) grid rows cols = .ok g ∧
      IsGrid rows cols g ∧
      ∀ i j : Int, 0 ≤ i → i < rows → 0 ≤ j → j < cols →
        ∃ ch, charAt (fileLines text) i j = some ch ∧
          (ch = 'X' → g[(i * cols + j).toNat]? = some 1) ∧
          (ch = '.' → g[(i * cols + j).toNat]? = some 0) := by
  obtain ⟨hok, herr⟩ := load_outcome rows cols text grid (le_of_lt hr) (le_of_lt hc) hlen
  cases hres : initializeGridFromFile (some text) grid rows cols with
  | error e =>
    exfalso
    rcases (herr e hres).2 with hfew | ⟨i, j, hi0, hi, hj0, hj, hbad⟩
    · omega
    · have hlt : i.toNat < (fileLines text).length := by omega
      have hl : (fileLines text)[i.toNat]? = some ((fileLines text)[i.toNat]) :=
        List.getElem?_eq_getElem hlt
      obtain ⟨hlen', hgood⟩ := hline _ (List.getElem?_mem hl)
      have hjlt : j.toNat < ((fileLines text)[i.toNat]).length := by omega
      have hch := List.getElem?_eq_getElem hjlt
      have := hbad _ (by rw [charAt_eq hi0 hj0 hl]; exact hch)
      rcases hgood _ (List.getElem?_mem hch) with h | h
      · exact this.1 h
      · exact this.2 h
  | ok g =>
    obtain ⟨hg, _, hcells⟩ := hok g hres
    refine ⟨g, rfl, ⟨hg, ?_⟩, ?_⟩
    · intro v hv
      obtain ⟨idx, hidx⟩ := List.mem_iff_getElem?.mp hv
      have hlt : idx < g.length := by
        by_contra hn
        rw [List.getElem?_eq_none (by omega)] at hidx
        cases hidx
      obtain ⟨a, b, c, d, e⟩ := flat_index_decompose rows hc idx (by omega)
      obtain ⟨ch, _, _, h3⟩ := hcells _ _ a b c d
      rw [← e, hidx] at h3
      cases h3
      by_cases hx : ch = 'X' <;> simp [hx]
    · intro i j hi0 hi hj0 hj
      obtain ⟨ch, h1, _, h3⟩ := hcells i j hi0 hi hj0 hj
      refine ⟨ch, h1, fun hx => ?_, fun hd => ?_⟩
      · rw [h3, if_pos hx]
      · rw [h3, if_neg (by rw [hd]; decide)]

/-- C10: for a grid of `rows * cols` cells, a number that is an `int`, and a text of exactly
`rows` lines of exactly `cols` characters each, all of them `.` or `X`, the load returns, and
it leaves a grid of `rows x cols` cells, each 0 or 1, in which cell `i * cols + j` is ALIVE (1)
where character `j` of line `i` is `X` and DEAD (0) where it is `.`; every counter, product
and flat index the load forms on the way is an `int`. -/
theorem load_decodes (rows cols : Int) (text : List Char) (grid : Buf)
    (hr : 0 < rows) (hc : 0 < cols) (hfit : rows * cols ≤ INT_MAX)
    (hlen : (grid.length : Int) = rows * cols)
    (hrows : ((fileLines text).length : Int) = rows)
    (hline : ∀ l ∈ fileLines text, (l.length : Int) = cols ∧ ∀ ch ∈ l, ch = '.' ∨ ch = 'X') :
    (∃ g, initializeGridFromFile (some text) grid rows cols = .ok g ∧
      IsGrid rows cols g ∧
      ∀ i j : Int, 0 ≤ i → i < rows → 0 ≤ j → j < cols →
        ∃ ch, charAt (fileLines text) i j = some ch ∧
          (ch = 'X' → g[(i * cols + j).toNat]? = some 1) ∧
          (ch = '.' → g[(i * cols + j).toNat]? = some 0)) ∧
    (∀ i j : Int, 0 ≤ i → i < rows → 0 ≤ j → j < cols →
      fitsInt (i + 1) ∧ fitsInt (j + 1) ∧ fitsInt (i * cols) ∧ fitsInt (i * cols + j)) :=
  ⟨load_returns_on_good_text rows cols text grid hr hc hlen hrows hline,
    fun i j hi0 hi hj0 hj => load_arithmetic_fits rows cols hr hc hfit i j hi0 hi hj0 hj⟩

/-- A 2 x 3 load of the lines `X.X` and `..X` into a buffer that held neither 0 nor 1. -/
theorem load_decodes_witness :
    (∃ g, initializeGridFromFile (some ['X', '.', 'X', '\n', '.', '.', 'X', '\n'])
          [7, 7, 7, 7, 7, 7] 2 3 = .ok g ∧
      IsGrid 2 3 g ∧
      ∀ i j : Int, 0 ≤ i → i < 2 → 0 ≤ j → j < 3 →
        ∃ ch, charAt (fileLines ['X', '.', 'X', '\n', '.', '.', 'X', '\n']) i j = some ch ∧
          (ch = 'X' → g[(i * 3 + j).toNat]? = some 1) ∧
          (ch = '.' → g[(i * 3 + j).toNat]? = some 0)) ∧
    initializeGridFromFile (some ['X', '.', 'X', '\n', '.', '.', 'X', '\n'])
      [7, 7, 7, 7, 7, 7] 2 3 = .ok [1, 0, 1, 0, 0, 1] :=
  ⟨(load_decodes 2 3 ['X', '.', 'X', '\n', '.', '.', 'X', '\n'] [7, 7, 7, 7, 7, 7]
    (by decide) (by decide) (by decide) (by decide) (by decide) (by decide)).1, by decide⟩

end Colony
